import Mathlib

/-!
Shallow embedding of the ascending bootstrap subsystem of rsnano-node.

Machine integers are modelled as `Nat` (with explicit wrap where the code can
overflow); 256-bit identifiers (`Account`, `BlockHash`, `HashOrAccount`) are
`Nat` values; byte streams are `List Nat` with every byte below 256.
Fallible code paths (Rust `panic!`, `unwrap`, `assert!`, `debug_assert!`)
are embedded as `Option`, `none` meaning the program aborts.

Sources embedded:
 * src/node/src/bootstrap/mod.rs  (orchestrator, verifiers, selection, cleanup, inspect)
 * src/node/src/bootstrap/ascending/database_scan.rs
 * src/rust/node/src/messages/asc_pull_req.rs  (wire codec)
 * src/core/src/blocks/mod.rs  (block accessors)

The collaborator modules `account_sets.rs`, `ordered_tags.rs`, `throttle.rs`,
`peer_scoring.rs` and `frontier_scan.rs` are not part of the source tree;
they are modelled from the specification (spec.md §3-§4), as marked on each
definition.
-/

abbrev Account := Nat

abbrev BlockHash := Nat

abbrev ChannelId := Nat

abbrev Timestamp := Nat

/-! ### Byte-stream primitives (rsnano_core::utils::Stream)

Big-endian encoding of a `k`-byte unsigned integer, most significant byte
first, and its decoder. -/

/-- `toBytesBE k n` is the `k`-byte big-endian encoding of `n % 256^k`. -/
def toBytesBE : Nat → Nat → List Nat
  | 0, _ => []
  | k + 1, n => toBytesBE k (n / 256) ++ [n % 256]

/-- Big-endian decoder: folds bytes most-significant first. -/
def fromBytesBE (l : List Nat) : Nat :=
  l.foldl (fun acc b => acc * 256 + b) 0

/-- Reads a single byte from a stream (`Stream::read_u8`). -/
def readByte : List Nat → Option (Nat × List Nat)
  | [] => none
  | b :: rest => some (b, rest)

/-- Reads exactly `k` bytes from a stream. -/
def readChunk (k : Nat) (l : List Nat) : Option (List Nat × List Nat) :=
  if k ≤ l.length then some (l.take k, l.drop k) else none

/-! ### Wire message model: `AscPullReq` (src/rust/node/src/messages/asc_pull_req.rs)

`u64` is modelled as `Fin (256^8)` and the 32-byte `HashOrAccount` as
`Fin (256^32)` (`256^8 = 2^64`, `256^32 = 2^256`). -/

abbrev U64W := Fin (256 ^ 8)

abbrev U256W := Fin (256 ^ 32)

abbrev U8W := Fin 256

/-- `HashType` from asc_pull_req.rs: discriminates account vs block start. -/
inductive HashTypeM
  | account
  | block
deriving DecidableEq

/-- `HashType as u8`: `Account = 0`, `Block = 1`. -/
def HashTypeM.toU8 : HashTypeM → Nat
  | .account => 0
  | .block => 1

/-- `HashType::deserialize` via `FromPrimitive::from_u8`. -/
def HashTypeM.fromU8 (b : Nat) : Option HashTypeM :=
  if b = 0 then some .account else if b = 1 then some .block else none

/-- `BlocksReqPayload`: 32-byte start, u8 count, u8 start type. -/
structure BlocksReqPayloadM where
  start : U256W
  count : U8W
  startType : HashTypeM
deriving DecidableEq

/-- `AccountInfoReqPayload`: 32-byte target, u8 target type. -/
structure AccountInfoReqPayloadM where
  target : U256W
  targetType : HashTypeM
deriving DecidableEq

/-- `AscPullReqType`: the two request payload variants of this codec. -/
inductive AscPullReqTypeM
  | blocks (p : BlocksReqPayloadM)
  | accountInfo (p : AccountInfoReqPayloadM)
deriving DecidableEq

/-- `AscPullReq`: id plus payload. -/
structure AscPullReqM where
  reqType : AscPullReqTypeM
  id : U64W
deriving DecidableEq

/-- `AscPullPayloadId`: `Blocks = 0x1`, `AccountInfo = 0x2` (`payload_type as u8`). -/
def payloadTypeU8 : AscPullReqTypeM → Nat
  | .blocks _ => 1
  | .accountInfo _ => 2

/-- `BlocksReqPayload::serialize`: start bytes, count, start type. -/
def serializeBlocksReq (p : BlocksReqPayloadM) : List Nat :=
  toBytesBE 32 p.start.val ++ [p.count.val, p.startType.toU8]

/-- `AccountInfoReqPayload::serialize`: target bytes, target type. -/
def serializeAccountInfoReq (p : AccountInfoReqPayloadM) : List Nat :=
  toBytesBE 32 p.target.val ++ [p.targetType.toU8]

/-- `impl Serialize for AscPullReq`: pull-type byte, u64 big-endian id, payload. -/
def AscPullReqM.serialize (r : AscPullReqM) : List Nat :=
  payloadTypeU8 r.reqType :: (toBytesBE 8 r.id.val ++
    (match r.reqType with
     | .blocks p => serializeBlocksReq p
     | .accountInfo p => serializeAccountInfoReq p))

/-- Reads a 32-byte big-endian value (`HashOrAccount::deserialize`). -/
def readU256 (l : List Nat) : Option (U256W × List Nat) :=
  match readChunk 32 l with
  | some (bs, rest) =>
    some (⟨fromBytesBE bs % 256 ^ 32, Nat.mod_lt _ (by norm_num)⟩, rest)
  | none => none

/-- Reads a u64 big-endian value (`Stream::read_u64_be`). -/
def readU64BE (l : List Nat) : Option (U64W × List Nat) :=
  match readChunk 8 l with
  | some (bs, rest) =>
    some (⟨fromBytesBE bs % 256 ^ 8, Nat.mod_lt _ (by norm_num)⟩, rest)
  | none => none

/-- `BlocksReqPayload::deserialize`. -/
def deserializeBlocksReq (l : List Nat) : Option (BlocksReqPayloadM × List Nat) :=
  match readU256 l with
  | none => none
  | some (start, l) =>
    match readByte l with
    | none => none
    | some (c, l) =>
      match readByte l with
      | none => none
      | some (t, l) =>
        match HashTypeM.fromU8 t with
        | none => none
        | some ht => some (⟨start, ⟨c % 256, Nat.mod_lt _ (by norm_num)⟩, ht⟩, l)

/-- `AccountInfoReqPayload::deserialize`. -/
def deserializeAccountInfoReq (l : List Nat) : Option (AccountInfoReqPayloadM × List Nat) :=
  match readU256 l with
  | none => none
  | some (target, l) =>
    match readByte l with
    | none => none
    | some (t, l) =>
      match HashTypeM.fromU8 t with
      | none => none
      | some ht => some (⟨target, ht⟩, l)

/-- `AscPullReq::deserialize`: pull-type byte, id, then the payload by variant. -/
def AscPullReqM.deserialize (l : List Nat) : Option (AscPullReqM × List Nat) :=
  match readByte l with
  | none => none
  | some (pt, l) =>
    if pt = 1 then
      match readU64BE l with
      | none => none
      | some (id, l) =>
        match deserializeBlocksReq l with
        | none => none
        | some (p, l) => some (⟨.blocks p, id⟩, l)
    else if pt = 2 then
      match readU64BE l with
      | none => none
      | some (id, l) =>
        match deserializeAccountInfoReq l with
        | none => none
        | some (p, l) => some (⟨.accountInfo p, id⟩, l)
    else none

/-! ### Block model (src/core/src/blocks/mod.rs)

`Block` is the tagged variant over the five block kinds. The block hash is a
cryptographic digest of the block contents; it is carried as a pre-computed
field (the source caches it lazily behind a lock, spec.md §9). Sideband data
(set by ledger processing) is carried in the `sideband*` fields; a `Blk` with
sideband stands for a `SavedBlock`. -/

inductive BlockKind
  | legacySend
  | legacyReceive
  | legacyOpen
  | legacyChange
  | state
deriving DecidableEq

structure Blk where
  kind : BlockKind
  hash : BlockHash
  previous : BlockHash
  /-- Account field of open and state blocks. -/
  acct : Account
  /-- Source hash of legacy open/receive blocks. -/
  src : BlockHash
  /-- Destination account of legacy send blocks. -/
  dest : Account
  /-- Link field of state blocks. -/
  link : Nat
  /-- Sideband: `details.is_send` (meaningful for state blocks). -/
  sidebandIsSend : Bool
  /-- Sideband: the owning account (used when the account field is absent). -/
  sidebandAccount : Account
deriving DecidableEq

/-- `BlockBase::account_field`: present exactly on open and state blocks. -/
def Blk.accountField (b : Blk) : Option Account :=
  match b.kind with
  | .legacyOpen => some b.acct
  | .state => some b.acct
  | _ => none

/-- `BlockBase::source_field`: source block for open/receive blocks. -/
def Blk.sourceField (b : Blk) : Option BlockHash :=
  match b.kind with
  | .legacyOpen => some b.src
  | .legacyReceive => some b.src
  | _ => none

/-- `BlockBase::link_field`: present on state blocks. -/
def Blk.linkField (b : Blk) : Option Nat :=
  match b.kind with
  | .state => some b.link
  | _ => none

/-- `Block::source_or_link`. -/
def Blk.sourceOrLink (b : Blk) : BlockHash :=
  (b.sourceField).getD ((b.linkField).getD 0)

/-- `Block::is_send` (sideband-backed for state blocks). -/
def Blk.isSend (b : Blk) : Bool :=
  match b.kind with
  | .legacySend => true
  | .state => b.sidebandIsSend
  | _ => false

/-- `Block::destination`. -/
def Blk.destination (b : Blk) : Option Account :=
  match b.kind with
  | .legacySend => some b.dest
  | .state => if b.sidebandIsSend then some b.link else none
  | _ => none

/-- `Block::account`: the account field, falling back to the sideband. -/
def Blk.savedAccount (b : Blk) : Account :=
  (b.accountField).getD b.sidebandAccount

/-! ### Tags and verification (src/node/src/bootstrap/mod.rs) -/

inductive QueryType
  | blocksByHash
  | blocksByAccount
  | accountInfoByHash
  | frontiers
  | invalid
deriving DecidableEq

inductive QuerySource
  | priority
  | database
  | dependencies
  | frontiers
  | invalid
deriving DecidableEq

/-- `AsyncTag` (spec.md §3): in-flight request record. `start` is the
`HashOrAccount` of the request. -/
structure AsyncTag where
  id : Nat
  queryType : QueryType
  source : QuerySource
  start : Nat
  account : Account
  hash : BlockHash
  count : Nat
  timestamp : Timestamp
deriving DecidableEq

inductive VerifyResult
  | ok
  | nothingNew
  | invalid
deriving DecidableEq

/-- Chain check of `verify_response`: each block's `previous` must equal the
hash of the block before it. -/
def chainValid : BlockHash → List Blk → Bool
  | _, [] => true
  | prev, b :: rest => if b.previous ≠ prev then false else chainValid b.hash rest

/-- `verify_response` (mod.rs). `none` models the `panic` of
`first.account_field().unwrap()` when the first block of a `BlocksByAccount`
response carries no account field (a legacy send/receive/change block). -/
def verifyResponse (blocks : List Blk) (tag : AsyncTag) : Option VerifyResult :=
  match blocks with
  | [] => some .nothingNew
  | first :: rest =>
    if rest = [] ∧ first.hash = tag.start then some .nothingNew
    else if blocks.length > tag.count then some .invalid
    else
      let headCheck : Option Bool :=
        match tag.queryType with
        | .blocksByHash => some (first.hash = tag.start)
        | .blocksByAccount =>
          match first.accountField with
          | some a => some (a = tag.start)
          | none => none
        | _ => some false
      match headCheck with
      | none => none
      | some false => some .invalid
      | some true =>
        if chainValid first.hash rest then some .ok else some .invalid

/-- The claim's reading of `verify_blocks` (C3, spec.md §4.8), written from
the claim's words: the classification is total, and an absent account field
on a `BlocksByAccount` response counts as "differs from `tag.start`". -/
def verifyBlocksClaim (blocks : List Blk) (tag : AsyncTag) : VerifyResult :=
  match blocks with
  | [] => .nothingNew
  | first :: rest =>
    if rest = [] ∧ first.hash = tag.start then .nothingNew
    else if blocks.length > tag.count then .invalid
    else if tag.queryType = .blocksByHash ∧ first.hash ≠ tag.start then .invalid
    else if tag.queryType = .blocksByAccount ∧ first.accountField ≠ some tag.start then .invalid
    else if ¬ chainValid first.hash rest then .invalid
    else .ok

/-- C3 amended, following the claim's steps except where the counterexample
forces a change: when a `BlocksByAccount` response reaches the first-block
check and that block has no account field, the code panics (`none`). -/
def verifyBlocksAmended (blocks : List Blk) (tag : AsyncTag) : Option VerifyResult :=
  match blocks with
  | [] => some .nothingNew
  | first :: rest =>
    if rest = [] ∧ first.hash = tag.start then some .nothingNew
    else if blocks.length > tag.count then some .invalid
    else if tag.queryType = .blocksByAccount ∧ first.accountField = none then none
    else if tag.queryType = .blocksByHash ∧ first.hash ≠ tag.start then some .invalid
    else if tag.queryType = .blocksByAccount ∧ first.accountField ≠ some tag.start then
      some .invalid
    else if ¬ chainValid first.hash rest then some .invalid
    else some .ok

/-- A peer's frontier claim: `(account, head_hash)`. -/
structure Frontier where
  account : Account
  hash : BlockHash
deriving DecidableEq

/-- The ascending-order loop of `verify_frontiers`: every account must be
strictly greater than the previous one, starting from `Account::zero()`. -/
def ascendingFrom : Account → List Frontier → Bool
  | _, [] => true
  | prev, f :: rest => if f.account ≤ prev then false else ascendingFrom f.account rest

/-- `BootstrapService::verify_frontiers` (mod.rs). -/
def verifyFrontiers (frontiers : List Frontier) (tag : AsyncTag) : VerifyResult :=
  match frontiers with
  | [] => .nothingNew
  | first :: _ =>
    if ¬ ascendingFrom 0 frontiers then .invalid
    else if first.account < tag.start then .invalid
    else .ok

/-- Strict ascent of a list of account numbers (the claim's reading for C4). -/
def strictAsc : List Account → Bool
  | [] => true
  | [_] => true
  | a :: b :: rest => if a < b then strictAsc (b :: rest) else false

/-- The claim's reading of `verify_frontiers` (C4): empty gives NothingNew;
not strictly ascending, or first account below `tag.start`, gives Invalid;
otherwise Ok. -/
def verifyFrontiersClaim (frontiers : List Frontier) (tag : AsyncTag) : VerifyResult :=
  match frontiers with
  | [] => .nothingNew
  | first :: _ =>
    if ¬ strictAsc (frontiers.map (·.account)) then .invalid
    else if first.account < tag.start then .invalid
    else .ok

/-- C4 amended: the ascending check runs with the zero sentinel in front, so
a frontier whose account is zero is also Invalid. -/
def verifyFrontiersAmended (frontiers : List Frontier) (tag : AsyncTag) : VerifyResult :=
  match frontiers with
  | [] => .nothingNew
  | first :: _ =>
    if ¬ strictAsc (0 :: frontiers.map (·.account)) then .invalid
    else if first.account < tag.start then .invalid
    else .ok

/-! ### AccountSets (spec.md §4.1; `account_sets.rs` is not in the source tree) -/

/-- Modelled from the spec: the minimum priority at which an entry survives
(`account_sets.priority_cutoff`). Priorities are non-negative reals, taken
as rationals here. -/
def PRIORITY_CUTOFF : Rat := 1

/-- Modelled from the spec: the "highest initial priority" used for the
genesis account and freshly seeded accounts. -/
def PRIORITY_INITIAL : Rat := 2

/-- Modelled from the spec: per-account cooldown between requests. -/
def COOLDOWN : Nat := 3

/-- Modelled from the spec: a priority-set entry with its
`last_request_timestamp` (0 = never requested). -/
structure PriorityEntry where
  account : Account
  priority : Rat
  timestamp : Timestamp
deriving DecidableEq

/-- Modelled from the spec: a blocked-map entry `account → dependency_hash`,
also carrying the account the dependency hash was resolved to (zero while
unknown). -/
structure BlockingEntry where
  account : Account
  dependency : BlockHash
  dependencyAccount : Account
deriving DecidableEq

/-- Modelled from the spec: capacity bounds of the two collections. -/
structure AccountSetsConfig where
  prioritiesMax : Nat
  blockingMax : Nat
deriving DecidableEq

/-- Modelled from the spec: the priority set and the blocked map. -/
structure AccountSets where
  config : AccountSetsConfig
  priorities : List PriorityEntry
  blocking : List BlockingEntry
deriving DecidableEq

def AccountSets.prioritized (s : AccountSets) (a : Account) : Bool :=
  s.priorities.any (·.account = a)

def AccountSets.isBlocked (s : AccountSets) (a : Account) : Bool :=
  s.blocking.any (·.account = a)

def AccountSets.priorityLen (s : AccountSets) : Nat := s.priorities.length

def AccountSets.blockedLen (s : AccountSets) : Nat := s.blocking.length

/-- Current priority of an account, `0` when not present. -/
def AccountSets.priority (s : AccountSets) (a : Account) : Rat :=
  match s.priorities.find? (·.account = a) with
  | some e => e.priority
  | none => 0

/-- Smallest priority value present in a list of entries. -/
def minPriorityVal : List PriorityEntry → Rat
  | [] => 0
  | e :: rest => rest.foldl (fun m x => min m x.priority) e.priority

/-- Modelled from the spec: the priority set is capacity-bounded, evicting a
lowest-priority entry when full. -/
def trimPriorities (cfg : AccountSetsConfig) (l : List PriorityEntry) : List PriorityEntry :=
  if l.length ≤ cfg.prioritiesMax then l
  else l.eraseP (fun e => e.priority = minPriorityVal l)

/-- Modelled from the spec: `priority_set(account, priority)` inserts or
raises. Zero accounts and blocked accounts are not inserted (an account is in
either the priority set or the blocked map, never both). Returns whether a
new entry was inserted. -/
def AccountSets.prioritySet (s : AccountSets) (a : Account) (p : Rat) : AccountSets × Bool :=
  if a = 0 then (s, false)
  else if s.isBlocked a then (s, false)
  else if s.prioritized a then
    ({ s with priorities :=
        s.priorities.map (fun e => if e.account = a then { e with priority := max e.priority p } else e) },
     false)
  else
    ({ s with priorities := trimPriorities s.config (⟨a, p, 0⟩ :: s.priorities) }, true)

/-- Modelled from the spec: seeding a newly observed account. -/
def AccountSets.prioritySetInitial (s : AccountSets) (a : Account) : AccountSets × Bool :=
  s.prioritySet a PRIORITY_INITIAL

inductive PriorityUpResult
  | updated
  | inserted
  | accountBlocked
  | invalidAccount
deriving DecidableEq

/-- Modelled from the spec: `priority_up` multiplies the priority up on a
present account, inserts an absent one, and refuses blocked or zero
accounts. -/
def AccountSets.priorityUp (s : AccountSets) (a : Account) : AccountSets × PriorityUpResult :=
  if a = 0 then (s, .invalidAccount)
  else if s.isBlocked a then (s, .accountBlocked)
  else if s.prioritized a then
    ({ s with priorities :=
        s.priorities.map (fun e => if e.account = a then { e with priority := e.priority * 2 } else e) },
     .updated)
  else
    ({ s with priorities := trimPriorities s.config (⟨a, PRIORITY_INITIAL, 0⟩ :: s.priorities) },
     .inserted)

inductive PriorityDownResult
  | deprioritized
  | erased
  | accountNotFound
  | invalidAccount
deriving DecidableEq

/-- Modelled from the spec: `priority_down` multiplies the priority down and
erases the entry when it falls below the cutoff. -/
def AccountSets.priorityDown (s : AccountSets) (a : Account) : AccountSets × PriorityDownResult :=
  if a = 0 then (s, .invalidAccount)
  else
    match s.priorities.find? (·.account = a) with
    | none => (s, .accountNotFound)
    | some e =>
      if e.priority / 2 < PRIORITY_CUTOFF then
        ({ s with priorities := s.priorities.filter (fun x => x.account ≠ a) }, .erased)
      else
        ({ s with priorities :=
            s.priorities.map (fun x => if x.account = a then { x with priority := x.priority / 2 } else x) },
         .deprioritized)

/-- Modelled from the spec: `block(account, dependency_hash)` moves the
account from the priority set to the blocked map. -/
def AccountSets.block (s : AccountSets) (a : Account) (dep : BlockHash) : AccountSets :=
  { s with
    priorities := s.priorities.filter (fun e => e.account ≠ a),
    blocking :=
      if s.blocking.any (·.account = a) then
        s.blocking.map (fun e => if e.account = a then { e with dependency := dep } else e)
      else ⟨a, dep, 0⟩ :: s.blocking }

/-- Modelled from the spec: `unblock(account, hash?)` moves the account back
to the priority set at the cutoff when the given hash matches the stored
dependency (or no hash is given); returns whether unblocking occurred. -/
def AccountSets.unblock (s : AccountSets) (a : Account) (h : Option BlockHash) :
    AccountSets × Bool :=
  match s.blocking.find? (·.account = a) with
  | none => (s, false)
  | some e =>
    let matches_ : Bool :=
      match h with
      | none => true
      | some hh => hh = e.dependency
    if matches_ then
      ({ s with
         blocking := s.blocking.filter (fun x => x.account ≠ a),
         priorities :=
           if s.priorities.any (·.account = a) then s.priorities
           else trimPriorities s.config (⟨a, PRIORITY_CUTOFF, 0⟩ :: s.priorities) },
       true)
    else (s, false)

/-- Modelled from the spec: `dependency_update(hash, new_account)` records
`new_account` on every blocked entry whose dependency equals `hash` and, when
any matched, raises `new_account`'s priority; returns the count updated. -/
def AccountSets.dependencyUpdate (s : AccountSets) (hash : BlockHash) (newAcc : Account) :
    AccountSets × Nat :=
  let n := (s.blocking.filter (·.dependency = hash)).length
  let s :=
    { s with blocking :=
        s.blocking.map (fun e => if e.dependency = hash then { e with dependencyAccount := newAcc } else e) }
  if n > 0 then ((s.prioritySet newAcc PRIORITY_CUTOFF).1, n) else (s, n)

/-- Modelled from the spec: `sync_dependencies` ensures the account each
blocked entry points to is at least at cutoff priority; returns
`(inserted, insert_failed)`. -/
def AccountSets.syncDependencies (s : AccountSets) : AccountSets × Nat × Nat :=
  s.blocking.foldl
    (fun acc e =>
      let st := acc.1
      if e.dependencyAccount = 0 then acc
      else
        match st.prioritySet e.dependencyAccount PRIORITY_CUTOFF with
        | (st2, true) => (st2, acc.2.1 + 1, acc.2.2)
        | (st2, false) => (st2, acc.2.1, acc.2.2 + 1))
    (s, 0, 0)

/-- Modelled from the spec: the cooldown on an entry has elapsed. -/
def cooldownElapsed (now : Timestamp) (e : PriorityEntry) : Bool :=
  e.timestamp = 0 ∨ e.timestamp + COOLDOWN ≤ now

/-- Modelled from the spec: the tie-break order of the priority set — higher
priority first, then earlier last-request timestamp, then the smaller
account. -/
def betterEntry (x b : PriorityEntry) : Bool :=
  x.priority > b.priority ∨
    (x.priority = b.priority ∧
      (x.timestamp < b.timestamp ∨ (x.timestamp = b.timestamp ∧ x.account < b.account)))

/-- Modelled from the spec: `next_priority(now, filter)` returns the
highest-priority account whose cooldown has elapsed and which the filter
accepts; zero when none qualifies. -/
def AccountSets.nextPriority (s : AccountSets) (now : Timestamp) (filter : Account → Bool) :
    Account :=
  match s.priorities.filter (fun e => cooldownElapsed now e ∧ filter e.account) with
  | [] => 0
  | e :: rest => (rest.foldl (fun b x => if betterEntry x b then x else b) e).account

/-- Modelled from the spec: `next_blocking(filter)` returns a dependency hash
accepted by the filter, zero when none. -/
def AccountSets.nextBlocking (s : AccountSets) (filter : BlockHash → Bool) : BlockHash :=
  match s.blocking.find? (fun e => filter e.dependency) with
  | some e => e.dependency
  | none => 0

/-- Modelled from the spec: record the time of the request just issued. -/
def AccountSets.timestampSet (s : AccountSets) (a : Account) (now : Timestamp) : AccountSets :=
  { s with priorities :=
      s.priorities.map (fun e => if e.account = a then { e with timestamp := now } else e) }

/-- Modelled from the spec: clear the cooldown so more requests may be issued. -/
def AccountSets.timestampReset (s : AccountSets) (a : Account) : AccountSets :=
  { s with priorities :=
      s.priorities.map (fun e => if e.account = a then { e with timestamp := 0 } else e) }

def AccountSets.priorityHalfFull (s : AccountSets) : Bool :=
  s.priorities.length > s.config.prioritiesMax / 2

def AccountSets.blockedHalfFull (s : AccountSets) : Bool :=
  s.blocking.length > s.config.blockingMax / 2

/-- The priority/blocked disjointness invariant (spec.md §3): no account is
in both collections. -/
def DisjointSets (s : AccountSets) : Prop :=
  ∀ e ∈ s.priorities, ∀ b ∈ s.blocking, e.account ≠ b.account

instance (s : AccountSets) : Decidable (DisjointSets s) := by
  unfold DisjointSets
  infer_instance

/-! ### OrderedTags (spec.md §4.5; `ordered_tags.rs` is not in the source tree) -/

/-- Modelled from the spec: the in-flight request registry, kept in insertion
order (front = oldest). Tag ids are unique while a tag lives here. -/
abbrev OrderedTags := List AsyncTag

/-- Modelled from the spec: `remove(id) → Option<tag>`, also yielding the
remaining registry. -/
def removeTag (id : Nat) : OrderedTags → Option (AsyncTag × OrderedTags)
  | [] => none
  | t :: rest =>
    if t.id = id then some (t, rest)
    else
      match removeTag id rest with
      | some (x, l) => some (x, t :: l)
      | none => none

/-- Modelled from the spec: `contains(id)`. -/
def containsTag (tags : OrderedTags) (id : Nat) : Bool :=
  tags.any (·.id = id)

/-- Modelled from the spec: `count_by_account(account, source)`. -/
def countByAccount (tags : OrderedTags) (a : Account) (src : QuerySource) : Nat :=
  (tags.filter (fun t => t.account = a ∧ t.source = src)).length

/-- Modelled from the spec: the tags registered for a hash, filtered by
source (`iter_hash` + filter + count, as used by `count_tags_by_hash`). -/
def countByHash (tags : OrderedTags) (h : BlockHash) (src : QuerySource) : Nat :=
  (tags.filter (fun t => t.hash = h ∧ t.source = src)).length

/-! ### Throttle (spec.md §4.6; `throttle.rs` is not in the source tree) -/

/-- Modelled from the spec: a fixed-capacity ring of booleans, oldest first. -/
structure Throttle where
  capacity : Nat
  values : List Bool
deriving DecidableEq

/-- Modelled from the spec: push a sample, dropping the oldest beyond
capacity. -/
def Throttle.add (t : Throttle) (b : Bool) : Throttle :=
  let vs := t.values ++ [b]
  { t with values := vs.drop (vs.length - t.capacity) }

/-- Modelled from the spec: `resize(n)` preserves the most recent entries. -/
def Throttle.resize (t : Throttle) (n : Nat) : Throttle :=
  { capacity := n, values := t.values.drop (t.values.length - n) }

/-- Modelled from the spec: throttled when the ratio of useful replies is
below the threshold (one half here). -/
def Throttle.throttled (t : Throttle) : Bool :=
  2 * t.values.count true < t.values.length

/-! ### PeerScoring (spec.md §4.4; `peer_scoring.rs` is not in the source tree) -/

/-- Modelled from the spec: per-channel outstanding requests, reply count and
cooldown. -/
structure ScoreEntry where
  channel : ChannelId
  outstanding : Nat
  replies : Nat
  cooldown : Nat
deriving DecidableEq

abbrev PeerScoring := List ScoreEntry

/-- Modelled from the spec: `received_message(channel)` increments replies
and decays outstanding. -/
def receivedMessage (ch : ChannelId) (ps : PeerScoring) : PeerScoring :=
  ps.map (fun e =>
    if e.channel = ch then { e with replies := e.replies + 1, outstanding := e.outstanding - 1 }
    else e)

/-- Modelled from the spec: `sync(list)` removes entries whose channel is no
longer live. -/
def scoringSync (live : List ChannelId) (ps : PeerScoring) : PeerScoring :=
  ps.filter (fun e => live.contains e.channel)

/-- Modelled from the spec: `timeout()` decays stale cooldown state. -/
def scoringDecay (ps : PeerScoring) : PeerScoring :=
  ps.map (fun e => { e with cooldown := e.cooldown - 1 })

/-! ### FrontierScan (spec.md §4.3; `frontier_scan.rs` is not in the source tree) -/

/-- Modelled from the spec: one shard of the account-number space with its
cursor. -/
structure FrontierShard where
  startBound : Account
  endBound : Account
  cursor : Account
deriving DecidableEq

abbrev FrontierScanSt := List FrontierShard

/-- Modelled from the spec: `process(start, frontiers)` advances the shard
owning `start` to the last account returned plus one, wrapping within the
shard bounds. -/
def frontierProcess (start : Account) (fs : List Frontier) (sh : FrontierScanSt) :
    FrontierScanSt :=
  match fs.getLast? with
  | none => sh
  | some last =>
    sh.map (fun s =>
      if s.startBound ≤ start ∧ start ≤ s.endBound then
        { s with cursor := if last.account + 1 > s.endBound then s.startBound else last.account + 1 }
      else s)

/-! ### Stats counters

Only the counters the verified claims talk about are tracked by name; every
other `stats.inc`/`sample` site bumps `other`. -/

structure Stats where
  missingTag : Nat
  reply : Nat
  invalidResponseType : Nat
  invalidResponse : Nat
  timeoutCount : Nat
  other : Nat
deriving DecidableEq

def Stats.incMissing (st : Stats) : Stats := { st with missingTag := st.missingTag + 1 }

def Stats.incReply (st : Stats) : Stats := { st with reply := st.reply + 1 }

def Stats.incInvalidType (st : Stats) : Stats :=
  { st with invalidResponseType := st.invalidResponseType + 1 }

def Stats.incInvalidResponse (st : Stats) : Stats :=
  { st with invalidResponse := st.invalidResponse + 1 }

def Stats.incTimeout (st : Stats) : Stats := { st with timeoutCount := st.timeoutCount + 1 }

def Stats.incOther (st : Stats) (n : Nat) : Stats := { st with other := st.other + n }

/-! ### DatabaseScan (src/node/src/bootstrap/ascending/database_scan.rs)

The ledger's account and pending tables are modelled as their key lists in
iteration (ascending key) order; `iter_range(tx, k..)` keeps the keys at or
above `k`. -/

/-- `PendingKey`: `(receiving_account, source_block_hash)`. -/
structure PendingKeyM where
  receivingAccount : Account
  hash : BlockHash
deriving DecidableEq

/-- Lexicographic order on pending keys, as iterated by the store. -/
def pkeyLe (k1 k2 : PendingKeyM) : Bool :=
  k1.receivingAccount < k2.receivingAccount ∨
    (k1.receivingAccount = k2.receivingAccount ∧ k1.hash ≤ k2.hash)

/-- `Account::inc().unwrap_or_default()`: 256-bit increment wrapping to zero. -/
def accIncWrap (a : Account) : Account :=
  if a + 1 < 2 ^ 256 then a + 1 else 0

/-- `BATCH_SIZE` in database_scan.rs. -/
def DB_BATCH_SIZE : Nat := 512

structure DBScan where
  /-- Ledger account-table keys in iteration order. -/
  accountTable : List Account
  /-- Ledger pending-table keys in iteration order. -/
  pendingTable : List PendingKeyM
  queue : List Account
  accountNext : Account
  accountCompleted : Nat
  pendingNext : PendingKeyM
  pendingCompleted : Nat
deriving DecidableEq

/-- The iteration loop of `AccountDatabaseScanner::next_batch`: consume up to
`fuel` accounts from the range, tracking the next cursor and whether the end
of the range was reached. -/
def accountLoop : List Account → Nat → Account → List Account × Account × Bool
  | [], _, next => ([], next, true)
  | _ :: _, 0, next => ([], next, false)
  | a :: rest, fuel + 1, _ =>
    let r := accountLoop rest fuel (accIncWrap a)
    (a :: r.1, r.2)

/-- `AccountDatabaseScanner::next_batch`. -/
def accountNextBatch (d : DBScan) (batchSize : Nat) : List Account × DBScan :=
  let range := d.accountTable.filter (fun a => d.accountNext ≤ a)
  let r := accountLoop range batchSize d.accountNext
  if r.2.2 then
    (r.1, { d with accountNext := 0, accountCompleted := d.accountCompleted + 1 })
  else (r.1, { d with accountNext := r.2.1 })

/-- The sequential-advance heuristic of `PendingDatabaseScanner::next_batch`:
up to `attempts` steps looking for an entry of a different receiving
account. Returns whether one was found and the iterator position (head =
current entry). -/
def seqAttempts : Nat → List PendingKeyM → Account → Bool × List PendingKeyM
  | 0, it, _ => (false, it)
  | _ + 1, [], _ => (false, [])
  | n + 1, k :: rest, starting =>
    if k.receivingAccount ≠ starting then (true, k :: rest)
    else seqAttempts n rest starting

/-- `SEQUENTIAL_ATTEMPTS` in database_scan.rs. -/
def SEQUENTIAL_ATTEMPTS : Nat := 10

/-- The iteration loop of `PendingDatabaseScanner::next_batch`. `pos` is the
iterator with the current entry at its head; a failed sequential advance
performs a fresh range lookup seeded at `(account+1, 0)`. -/
def pendingLoop (table : List PendingKeyM) :
    Nat → List PendingKeyM → PendingKeyM → List Account × PendingKeyM × Bool
  | _, [], next => ([], next, true)
  | 0, _ :: _, next => ([], next, false)
  | fuel + 1, k :: future, _ =>
    let starting := k.receivingAccount
    let next := PendingKeyM.mk (accIncWrap starting) 0
    let adv := seqAttempts SEQUENTIAL_ATTEMPTS future starting
    let pos :=
      if adv.1 then adv.2
      else table.filter (fun x => pkeyLe (PendingKeyM.mk (accIncWrap starting) 0) x)
    let r := pendingLoop table fuel pos next
    (starting :: r.1, r.2)

/-- `PendingDatabaseScanner::next_batch`. -/
def pendingNextBatch (d : DBScan) (batchSize : Nat) : List Account × DBScan :=
  let pos := d.pendingTable.filter (fun x => pkeyLe d.pendingNext x)
  let r := pendingLoop d.pendingTable batchSize pos d.pendingNext
  if r.2.2 then
    (r.1, { d with pendingNext := ⟨0, 0⟩, pendingCompleted := d.pendingCompleted + 1 })
  else (r.1, { d with pendingNext := r.2.1 })

/-- `DatabaseScan::fill`: one batch from each scanner, appended to the queue. -/
def DBScan.fill (d : DBScan) : DBScan :=
  let r1 := accountNextBatch d DB_BATCH_SIZE
  let r2 := pendingNextBatch r1.2 DB_BATCH_SIZE
  { r2.2 with queue := r2.2.queue ++ r1.1 ++ r2.1 }

/-- The pop loop of `DatabaseScan::next`: pop until the filter accepts. -/
def popUntil (filter : Account → Bool) : List Account → Option Account × List Account
  | [] => (none, [])
  | a :: rest => if filter a then (some a, rest) else popUntil filter rest

/-- `DatabaseScan::next(filter)`. -/
def DBScan.next (d : DBScan) (filter : Account → Bool) : Account × DBScan :=
  let d := if d.queue.isEmpty then d.fill else d
  match popUntil filter d.queue with
  | (some a, rest) => (a, { d with queue := rest })
  | (none, rest) => (0, { d with queue := rest })

/-- `DatabaseScan::warmed_up`. -/
def DBScan.warmedUp (d : DBScan) : Bool :=
  d.accountCompleted > 0 && d.pendingCompleted > 0

/-! ### Orchestrator state (`BootstrapLogic` plus the effects it drives) -/

/-- Configuration subset used by the embedded logic (`BootstrapConfig`). -/
structure Config where
  requestTimeout : Nat
  /-- `frontier_scan.max_pending`. -/
  maxPending : Nat
deriving DecidableEq

/-- `AccountInfoAckPayload`: only the `account` field is consulted by the
bootstrap logic. -/
structure AccountInfoAckPayload where
  account : Account
deriving DecidableEq

/-- `AscPullAckType` (ack payload shapes, spec.md §6). -/
inductive AscPullAckType
  | blocks (payload : List Blk)
  | accountInfo (payload : AccountInfoAckPayload)
  | frontiers (payload : List Frontier)
deriving DecidableEq

/-- `AscPullAck`: an incoming ack message. -/
structure AscPullAckM where
  id : Nat
  pullType : AscPullAckType
deriving DecidableEq

/-- The shared bootstrap state: `BootstrapLogic` fields plus the externally
visible effects (blocks submitted to the processor, frontier jobs posted to
the worker pool). -/
structure BState where
  accounts : AccountSets
  tags : OrderedTags
  throttle : Throttle
  frontiers : FrontierScanSt
  scoring : PeerScoring
  dbScan : DBScan
  /-- Blocks handed to the block processor, in submission order. -/
  blockProcessor : List Blk
  /-- Frontier lists posted to the worker pool and not yet processed. -/
  workerJobs : List (List Frontier)
  /-- `sync_dependencies_interval`, as an instant. -/
  syncInterval : Nat
  stats : Stats
deriving DecidableEq

/-- The non-statistics part of the state ("state" for the transition claims:
counters are observability, not state). -/
structure BCore where
  accounts : AccountSets
  tags : OrderedTags
  throttle : Throttle
  frontiers : FrontierScanSt
  scoring : PeerScoring
  dbScan : DBScan
  blockProcessor : List Blk
  workerJobs : List (List Frontier)
deriving DecidableEq

def BState.core (s : BState) : BCore :=
  ⟨s.accounts, s.tags, s.throttle, s.frontiers, s.scoring, s.dbScan,
   s.blockProcessor, s.workerJobs⟩

/-- The blocks actually submitted for an `Ok` response: the first block is
dropped when it is the one the request started from (already known). -/
def submittedBlocks (blocks : List Blk) (tag : AsyncTag) : List Blk :=
  match blocks with
  | [] => []
  | first :: rest => if first.hash = tag.start then rest else first :: rest

/-- `BootstrapService::process_blocks`. `none` models the panics: the
`unwrap` inside `verify_response` and the `assert!(blocks.len() >= 1)`.
The completion callback attached to the last block (`timestamp_reset`) runs
asynchronously on the block processor and is not part of this transition. -/
def processBlocksFn (s : BState) (blocks : List Blk) (tag : AsyncTag) :
    Option (BState × Bool) :=
  let s := { s with stats := s.stats.incOther 1 }
  match verifyResponse blocks tag with
  | none => none
  | some .ok =>
    let s := { s with stats := s.stats.incOther 2 }
    match blocks with
    | [] => none
    | _ :: _ =>
      let s := { s with blockProcessor := s.blockProcessor ++ submittedBlocks blocks tag }
      let s :=
        if tag.source = .database then { s with throttle := s.throttle.add true } else s
      some (s, true)
  | some .nothingNew =>
    let s := { s with stats := s.stats.incOther 1 }
    let r := s.accounts.priorityDown tag.account
    let s := { s with accounts := r.1, stats := s.stats.incOther 1 }
    let s :=
      if tag.source = .database then { s with throttle := s.throttle.add false } else s
    some (s, true)
  | some .invalid => some ({ s with stats := s.stats.incOther 1 }, false)

/-- `BootstrapService::process_accounts`. -/
def processAccountsFn (s : BState) (resp : AccountInfoAckPayload) (tag : AsyncTag) :
    BState × Bool :=
  if resp.account = 0 then ({ s with stats := s.stats.incOther 1 }, true)
  else
    let s := { s with stats := s.stats.incOther 1 }
    let r := s.accounts.dependencyUpdate tag.hash resp.account
    let s := { s with accounts := r.1, stats := s.stats.incOther 1 }
    let r2 := s.accounts.prioritySet resp.account PRIORITY_CUTOFF
    let s := { s with accounts := r2.1, stats := s.stats.incOther 1 }
    (s, true)

/-- `BootstrapService::process_frontiers`. A verified-Ok response updates the
frontier scan and posts an analysis job when the worker pool has capacity
(overfill up to `max_pending * 4`). -/
def processFrontiersFn (cfg : Config) (s : BState) (fs : List Frontier) (tag : AsyncTag) :
    BState × Bool :=
  if fs = [] then ({ s with stats := s.stats.incOther 1 }, true)
  else
    let s := { s with stats := s.stats.incOther 1 }
    match verifyFrontiers fs tag with
    | .ok =>
      let s :=
        { s with stats := s.stats.incOther 2,
                 frontiers := frontierProcess tag.start fs s.frontiers }
      let s :=
        if s.workerJobs.length < cfg.maxPending * 4 then
          { s with workerJobs := s.workerJobs ++ [fs] }
        else { s with stats := s.stats.incOther 1 }
      (s, true)
    | .nothingNew => ({ s with stats := s.stats.incOther 1 }, true)
    | .invalid => ({ s with stats := s.stats.incOther 1 }, false)

/-- The variant/query-type compatibility check of `process`. -/
def variantMatches : AscPullAckType → QueryType → Bool
  | .blocks _, .blocksByHash => true
  | .blocks _, .blocksByAccount => true
  | .accountInfo _, .accountInfoByHash => true
  | .frontiers _, .frontiers => true
  | _, _ => false

/-- `BootstrapService::process` (the ingress handler for `asc_pull_ack`).
Returns the new state and whether the payload was dispatched; `none` models
a panic inside the dispatch. -/
def processAck (cfg : Config) (s : BState) (m : AscPullAckM) (ch : ChannelId) :
    Option (BState × Bool) :=
  match removeTag m.id s.tags with
  | none => some ({ s with stats := s.stats.incMissing }, false)
  | some (tag, rest) =>
    let s := { s with tags := rest, stats := s.stats.incReply }
    if ¬ variantMatches m.pullType tag.queryType then
      some ({ s with stats := s.stats.incInvalidType }, false)
    else
      let s := { s with stats := s.stats.incOther 2 }
      let dispatched : Option (BState × Bool) :=
        match m.pullType with
        | .blocks blocks => processBlocksFn s blocks tag
        | .accountInfo info => some (processAccountsFn s info tag)
        | .frontiers fs => some (processFrontiersFn cfg s fs tag)
      match dispatched with
      | none => none
      | some (s2, ok) =>
        if ok then some ({ s2 with scoring := receivedMessage ch s2.scoring }, true)
        else some ({ s2 with stats := s2.stats.incInvalidResponse }, true)

/-- `BootstrapService::create_asc_pull_request`: registers the tag. `none`
models the `debug_assert!` on the source, the `debug_assert!` that the id is
not already live, and the `panic!` on an invalid query type. -/
def createAscPullRequest (tags : OrderedTags) (tag : AsyncTag) : Option OrderedTags :=
  if tag.source = .invalid then none
  else if containsTag tags tag.id then none
  else if tag.queryType = .invalid then none
  else some (tags ++ [tag])

/-! ### Candidate selection (`BootstrapLogic::next_*`, mod.rs) -/

/-- `BootstrapLogic::next_priority`: picks an account through
`AccountSets::next_priority` with the in-flight filter, stamps its request
time, and returns it with its priority. -/
def nextPriorityL (s : BState) (now : Timestamp) : BState × Account × Rat :=
  let account :=
    s.accounts.nextPriority now (fun a => countByAccount s.tags a .priority < 4)
  if account = 0 then (s, 0, 0)
  else
    let s := { s with stats := s.stats.incOther 1,
                      accounts := s.accounts.timestampSet account now }
    (s, account, s.accounts.priority account)

/-- `BootstrapLogic::next_database`: gated by the database rate limiter
(token bucket, spec.md §4.7, modelled as a token count without refill since
refill is wall-clock driven), then the database scan with the
no-duplicate-in-flight filter. -/
def nextDatabaseL (s : BState) (shouldThrottle : Bool) (dbTokens : Nat)
    (warmupFactor : Nat) : BState × Account × Nat :=
  let weight := if shouldThrottle then warmupFactor else 1
  if dbTokens < weight then (s, 0, dbTokens)
  else
    let tokens := dbTokens - weight
    let r := s.dbScan.next (fun a => countByAccount s.tags a .database = 0)
    let s := { s with dbScan := r.2 }
    if r.1 = 0 then (s, 0, tokens)
    else ({ s with stats := s.stats.incOther 1 }, r.1, tokens)

/-- `BootstrapLogic::next_blocking`. -/
def nextBlockingL (s : BState) : BState × BlockHash :=
  let blocking :=
    s.accounts.nextBlocking (fun h => countByHash s.tags h .dependencies = 0)
  if blocking = 0 then (s, 0)
  else ({ s with stats := s.stats.incOther 1 }, blocking)

/-! ### Cleanup (`BootstrapLogic::cleanup_and_sync`, mod.rs) -/

/-- The timeout sweep: pop tags from the insertion-ordered front while they
are older than the cutoff. -/
def evictTimedOut (cutoff : Nat) : OrderedTags → Stats → OrderedTags × Stats
  | [], st => ([], st)
  | t :: rest, st =>
    if t.timestamp < cutoff then evictTimedOut cutoff rest st.incTimeout
    else (t :: rest, st)

/-- `BootstrapLogic::cleanup_and_sync`. `channels` stands for the live
realtime channel list and `throttleSize` for `compute_throttle_size`
(whose `f64::ln` is evaluated outside this embedding); `now` is the steady
clock, `inow` the instant used for the 60-second dependency sync interval. -/
def cleanupAndSync (cfg : Config) (channels : List ChannelId) (throttleSize : Nat)
    (s : BState) (now : Timestamp) (inow : Nat) : BState :=
  let s := { s with scoring := scoringDecay (scoringSync channels s.scoring) }
  let s := { s with throttle := s.throttle.resize throttleSize }
  let cutoff := now - cfg.requestTimeout
  let r := evictTimedOut cutoff s.tags s.stats
  let s := { s with tags := r.1, stats := r.2 }
  if inow ≥ s.syncInterval + 60 then
    let s := { s with syncInterval := inow, stats := s.stats.incOther 1 }
    let r2 := s.accounts.syncDependencies
    { s with accounts := r2.1, stats := s.stats.incOther (r2.2.1 + r2.2.2) }
  else s

/-! ### Block-processor feedback (`BootstrapLogic::inspect`, mod.rs) -/

inductive BlockStatusM
  | progress
  | gapSource
  | gapPrevious
  | otherStatus
deriving DecidableEq

inductive BlockSourceM
  | bootstrap
  | live
  | otherSource
deriving DecidableEq

/-- `BootstrapLogic::inspect`. `none` models the `unwrap`s (a `Progress`
status without a saved block; a state block without an account field cannot
occur, but the legacy branch is guarded by the block type check). -/
def inspect (sets : AccountSets) (stats : Stats) (status : BlockStatusM) (block : Blk)
    (savedBlock : Option Blk) (source : BlockSourceM) (account : Account) :
    Option (AccountSets × Stats) :=
  let hash := block.hash
  match status with
  | .progress =>
    match savedBlock with
    | none => none
    | some sb =>
      let account := sb.savedAccount
      let r := sets.unblock account none
      let stats := stats.incOther 1
      let r2 := r.1.priorityUp account
      let sets := r2.1
      let stats := stats.incOther 1
      if sb.isSend then
        match sb.destination with
        | none => none
        | some dest =>
          let r3 := sets.unblock dest (some hash)
          let stats := stats.incOther 1
          let r4 := r3.1.prioritySetInitial dest
          some (r4.1, stats.incOther 1)
      else some (sets, stats)
  | .gapSource =>
    if source = .bootstrap then
      let src := block.sourceOrLink
      if account ≠ 0 ∧ src ≠ 0 then
        some (sets.block account src, stats.incOther 3)
      else some (sets, stats)
    else some (sets, stats)
  | .gapPrevious =>
    if source = .live ∧ ¬ sets.priorityHalfFull ∧ ¬ sets.blockedHalfFull then
      if block.kind = .state then
        match block.accountField with
        | none => none
        | some a =>
          let r := sets.prioritySetInitial a
          some (r.1, stats.incOther 1)
      else some (sets, stats)
    else some (sets, stats)
  | .otherStatus => some (sets, stats)

/-- A small concrete bootstrap state (empty collections), used to
instantiate theorems on explicit inputs. -/
def S0 : BState :=
  ⟨⟨⟨10, 10⟩, [], []⟩, [], ⟨4, []⟩, [], [], ⟨[], [], [], 0, 0, ⟨0, 0⟩, 0⟩, [], [], 0,
   ⟨0, 0, 0, 0, 0, 0⟩⟩

/-! ## Theorems -/

/-! ### Byte-stream lemmas -/

theorem length_toBytesBE (k n : Nat) : (toBytesBE k n).length = k := by
  induction k generalizing n with
  | zero => rfl
  | succ k ih => simp [toBytesBE, ih]

theorem fromBytesBE_acc (l : List Nat) (a : Nat) :
    l.foldl (fun acc b => acc * 256 + b) a = a * 256 ^ l.length + fromBytesBE l := by
  induction l generalizing a with
  | nil => simp [fromBytesBE]
  | cons b rest ih =>
    simp only [List.foldl_cons, fromBytesBE, Nat.zero_mul, Nat.zero_add, List.length_cons]
    rw [ih (a * 256 + b), ih b]
    ring

theorem fromBytesBE_append (xs ys : List Nat) :
    fromBytesBE (xs ++ ys) = fromBytesBE xs * 256 ^ ys.length + fromBytesBE ys := by
  simp only [fromBytesBE, List.foldl_append]
  exact fromBytesBE_acc ys (List.foldl (fun acc b => acc * 256 + b) 0 xs)

theorem fromBytesBE_toBytesBE (k n : Nat) :
    fromBytesBE (toBytesBE k n) = n % 256 ^ k := by
  induction k generalizing n with
  | zero => simp [toBytesBE, fromBytesBE, Nat.mod_one]
  | succ k ih =>
    rw [toBytesBE, fromBytesBE_append, ih]
    simp only [fromBytesBE, List.foldl_cons, List.foldl_nil, List.length_cons,
      List.length_nil, pow_one, Nat.zero_mul, Nat.zero_add, pow_zero]
    have h : 256 ^ (k + 1) = 256 * 256 ^ k := by ring
    rw [h, Nat.mod_mul]
    ring

theorem readChunk_append (xs rest : List Nat) (k : Nat) (h : xs.length = k) :
    readChunk k (xs ++ rest) = some (xs, rest) := by
  subst h
  simp [readChunk, List.take_left, List.drop_left]

theorem readU256_round (v : U256W) (rest : List Nat) :
    readU256 (toBytesBE 32 v.val ++ rest) = some (v, rest) := by
  have h := readChunk_append (toBytesBE 32 v.val) rest 32 (length_toBytesBE 32 v.val)
  have hv : fromBytesBE (toBytesBE 32 v.val) % 256 ^ 32 = v.val := by
    rw [fromBytesBE_toBytesBE, Nat.mod_eq_of_lt v.isLt, Nat.mod_eq_of_lt v.isLt]
  simp only [readU256, h]
  exact congrArg some (Prod.ext (Fin.ext hv) rfl)

theorem readU64BE_round (v : U64W) (rest : List Nat) :
    readU64BE (toBytesBE 8 v.val ++ rest) = some (v, rest) := by
  have h := readChunk_append (toBytesBE 8 v.val) rest 8 (length_toBytesBE 8 v.val)
  have hv : fromBytesBE (toBytesBE 8 v.val) % 256 ^ 8 = v.val := by
    rw [fromBytesBE_toBytesBE, Nat.mod_eq_of_lt v.isLt, Nat.mod_eq_of_lt v.isLt]
  simp only [readU64BE, h]
  exact congrArg some (Prod.ext (Fin.ext hv) rfl)

theorem fromU8_toU8 (t : HashTypeM) : HashTypeM.fromU8 t.toU8 = some t := by
  cases t <;> rfl

theorem deserializeBlocksReq_round (p : BlocksReqPayloadM) (rest : List Nat) :
    deserializeBlocksReq (serializeBlocksReq p ++ rest) = some (p, rest) := by
  simp [deserializeBlocksReq, serializeBlocksReq, List.append_assoc, readU256_round,
    readByte, fromU8_toU8, Nat.mod_eq_of_lt p.count.isLt]

theorem deserializeAccountInfoReq_round (p : AccountInfoReqPayloadM) (rest : List Nat) :
    deserializeAccountInfoReq (serializeAccountInfoReq p ++ rest) = some (p, rest) := by
  simp [deserializeAccountInfoReq, serializeAccountInfoReq, List.append_assoc,
    readU256_round, readByte, fromU8_toU8]

/-- C9: for every `AscPullReq` value (any id and any request payload
variant), serializing it to a byte stream and then deserializing that stream
yields the original value (and consumes exactly the serialized bytes). -/
theorem c9_asc_pull_req_roundtrip (r : AscPullReqM) (rest : List Nat) :
    AscPullReqM.deserialize (r.serialize ++ rest) = some (r, rest) := by
  obtain ⟨reqType, id⟩ := r
  cases reqType with
  | blocks p =>
    simp [AscPullReqM.serialize, AscPullReqM.deserialize, payloadTypeU8, readByte,
      List.append_assoc, readU64BE_round, deserializeBlocksReq_round]
  | accountInfo p =>
    simp [AscPullReqM.serialize, AscPullReqM.deserialize, payloadTypeU8, readByte,
      List.append_assoc, readU64BE_round, deserializeAccountInfoReq_round]

/-! ### Frontier verification (C4) -/

theorem ascendingFrom_eq_strictAsc (p : Account) (fs : List Frontier) :
    ascendingFrom p fs = strictAsc (p :: fs.map (·.account)) := by
  induction fs generalizing p with
  | nil => rfl
  | cons f rest ih =>
    by_cases h : f.account ≤ p
    · have h2 : ¬ p < f.account := Nat.not_lt.mpr h
      simp [ascendingFrom, strictAsc, h, h2]
    · have h2 : p < f.account := Nat.lt_of_not_le h
      simp [ascendingFrom, strictAsc, h, h2, ih]

/-- C4 counterexample: a single frontier for the zero account with
`tag.start = 0` is strictly ascending and not below the start, so the claim
classifies it `Ok`, but `verify_frontiers` starts its ascending check from
the zero sentinel and returns `Invalid`. -/
theorem c4_counterexample :
    verifyFrontiers [⟨0, 1⟩] ⟨7, .frontiers, .frontiers, 0, 0, 0, 0, 0⟩ = .invalid ∧
    verifyFrontiersClaim [⟨0, 1⟩] ⟨7, .frontiers, .frontiers, 0, 0, 0, 0, 0⟩ = .ok := by
  constructor <;> rfl

/-- C4 (amended): `verify_frontiers` returns NothingNew on an empty list,
Invalid when the accounts prefixed by the zero sentinel are not strictly
ascending (in particular when an account is zero) or when the first account
is strictly below `tag.start`, and Ok otherwise. -/
theorem c4_verify_frontiers_amended (frontiers : List Frontier) (tag : AsyncTag) :
    verifyFrontiers frontiers tag = verifyFrontiersAmended frontiers tag := by
  cases frontiers with
  | nil => rfl
  | cons f rest =>
    simp only [verifyFrontiers, verifyFrontiersAmended, List.map_cons,
      ascendingFrom_eq_strictAsc]

/-! ### Blocks verification (C3, C10) -/

/-- C3 counterexample: a `BlocksByAccount` tag (`start = 7`, `count = 2`)
answered with a single legacy change block (hash 5, no account field). The
claim's steps classify it `Invalid`; `verify_response` panics on
`first.account_field().unwrap()` instead of classifying. -/
theorem c3_counterexample :
    verifyResponse [⟨.legacyChange, 5, 3, 0, 0, 0, 0, false, 0⟩]
        ⟨1, .blocksByAccount, .priority, 7, 0, 0, 2, 0⟩ = none ∧
    verifyBlocksClaim [⟨.legacyChange, 5, 3, 0, 0, 0, 0, false, 0⟩]
        ⟨1, .blocksByAccount, .priority, 7, 0, 0, 2, 0⟩ = .invalid := by
  constructor <;> rfl

/-- C3 (amended): for a tag of one of the two blocks query types,
`verify_response` classifies exactly by the claim's steps, except that a
`BlocksByAccount` response whose first block reaches the account check with
no account field makes the code panic instead of yielding `Invalid`. -/
theorem c3_verify_response_amended (blocks : List Blk) (tag : AsyncTag)
    (h : tag.queryType = .blocksByHash ∨ tag.queryType = .blocksByAccount) :
    verifyResponse blocks tag = verifyBlocksAmended blocks tag := by
  cases blocks with
  | nil => rfl
  | cons first rest =>
    rcases h with h | h <;>
      simp only [verifyResponse, verifyBlocksAmended, h] <;>
      cases haf : first.accountField <;>
      split_ifs <;>
      simp_all

theorem verifyResponse_ok_shape (blocks : List Blk) (tag : AsyncTag)
    (h : verifyResponse blocks tag = some .ok) :
    blocks ≠ [] ∧ 1 ≤ (submittedBlocks blocks tag).length := by
  cases blocks with
  | nil => simp [verifyResponse] at h
  | cons first rest =>
    refine ⟨by simp, ?_⟩
    by_cases hs : first.hash = tag.start
    · have hrest : rest ≠ [] := by
        intro hr
        rw [hr] at h
        simp [verifyResponse, hs] at h
      cases rest with
      | nil => exact absurd rfl hrest
      | cons b bs => simp [submittedBlocks, hs]
    · simp [submittedBlocks, hs]

/-- C10: whenever `verify_response` returns Ok the block list is non-empty
and, after dropping a first block equal to `tag.start`, at least one block
remains; `process_blocks` therefore passes its non-emptyness assertion and
submits at least one block to the block processor. -/
theorem c10_ok_submits_blocks (blocks : List Blk) (tag : AsyncTag) (s : BState)
    (h : verifyResponse blocks tag = some .ok) :
    blocks ≠ [] ∧ 1 ≤ (submittedBlocks blocks tag).length ∧
      ∃ s', processBlocksFn s blocks tag = some (s', true) ∧
        s'.blockProcessor = s.blockProcessor ++ submittedBlocks blocks tag := by
  obtain ⟨hne, hlen⟩ := verifyResponse_ok_shape blocks tag h
  refine ⟨hne, hlen, ?_⟩
  cases blocks with
  | nil => exact absurd rfl hne
  | cons first rest =>
    by_cases hdb : tag.source = .database <;>
      simp [processBlocksFn, h, hdb]

/-- C3 witness: the amended statement applied at a concrete `BlocksByHash`
response. -/
theorem c3_verify_response_amended_witness :
    ((⟨1, .blocksByHash, .priority, 5, 0, 0, 2, 0⟩ : AsyncTag).queryType = .blocksByHash ∨
      (⟨1, .blocksByHash, .priority, 5, 0, 0, 2, 0⟩ : AsyncTag).queryType = .blocksByAccount) ∧
    verifyResponse [⟨.state, 5, 0, 9, 0, 0, 0, false, 9⟩]
        ⟨1, .blocksByHash, .priority, 5, 0, 0, 2, 0⟩ =
      verifyBlocksAmended [⟨.state, 5, 0, 9, 0, 0, 0, false, 9⟩]
        ⟨1, .blocksByHash, .priority, 5, 0, 0, 2, 0⟩ :=
  ⟨Or.inl rfl,
   c3_verify_response_amended [⟨.state, 5, 0, 9, 0, 0, 0, false, 9⟩]
     ⟨1, .blocksByHash, .priority, 5, 0, 0, 2, 0⟩ (Or.inl rfl)⟩

/-- C10 witness: a two-block chain answering a `BlocksByHash` request whose
first block is the start block; one block is submitted. -/
theorem c10_ok_submits_blocks_witness :
    verifyResponse
        [⟨.state, 5, 4, 9, 0, 0, 0, false, 9⟩, ⟨.state, 6, 5, 9, 0, 0, 0, false, 9⟩]
        ⟨1, .blocksByHash, .priority, 5, 9, 0, 2, 0⟩ = some .ok ∧
    ([⟨.state, 5, 4, 9, 0, 0, 0, false, 9⟩, ⟨.state, 6, 5, 9, 0, 0, 0, false, 9⟩] ≠
        ([] : List Blk) ∧
      1 ≤ (submittedBlocks
        [⟨.state, 5, 4, 9, 0, 0, 0, false, 9⟩, ⟨.state, 6, 5, 9, 0, 0, 0, false, 9⟩]
        ⟨1, .blocksByHash, .priority, 5, 9, 0, 2, 0⟩).length ∧
      ∃ s', processBlocksFn S0
          [⟨.state, 5, 4, 9, 0, 0, 0, false, 9⟩, ⟨.state, 6, 5, 9, 0, 0, 0, false, 9⟩]
          ⟨1, .blocksByHash, .priority, 5, 9, 0, 2, 0⟩ = some (s', true) ∧
        s'.blockProcessor = S0.blockProcessor ++ submittedBlocks
          [⟨.state, 5, 4, 9, 0, 0, 0, false, 9⟩, ⟨.state, 6, 5, 9, 0, 0, 0, false, 9⟩]
          ⟨1, .blocksByHash, .priority, 5, 9, 0, 2, 0⟩) :=
  ⟨by decide,
   c10_ok_submits_blocks
     [⟨.state, 5, 4, 9, 0, 0, 0, false, 9⟩, ⟨.state, 6, 5, 9, 0, 0, 0, false, 9⟩]
     ⟨1, .blocksByHash, .priority, 5, 9, 0, 2, 0⟩ S0 (by decide)⟩

/-! ### DatabaseScan (C8) -/

theorem popUntil_find (filter : Account → Bool) (l : List Account) :
    (popUntil filter l).1 = l.find? filter := by
  induction l with
  | nil => rfl
  | cons a rest ih =>
    by_cases h : filter a <;> simp [popUntil, List.find?_cons, h, ih]

theorem dbNext_find (d : DBScan) (filter : Account → Bool) :
    (d.next filter).1 =
      (((if d.queue.isEmpty then d.fill else d).queue).find? filter).getD 0 := by
  simp only [DBScan.next]
  generalize (if d.queue.isEmpty then d.fill else d) = d2
  have hfind := popUntil_find filter d2.queue
  rcases hp : popUntil filter d2.queue with ⟨o, rest⟩
  rw [hp] at hfind
  cases o with
  | none => simp [← hfind]
  | some a => simp [← hfind]

theorem accountLoop_end (l : List Account) (fuel : Nat) (next : Account) :
    (accountLoop l fuel next).2.2 = true ↔ l.length ≤ fuel := by
  induction l generalizing fuel next with
  | nil => simp [accountLoop]
  | cons a rest ih =>
    cases fuel with
    | zero => simp [accountLoop]
    | succ fuel =>
      simp only [accountLoop, List.length_cons]
      rw [ih]
      omega

theorem accountNextBatch_reset (d : DBScan) (bs : Nat) :
    ((accountNextBatch d bs).2.accountNext = 0 ∧
        (accountNextBatch d bs).2.accountCompleted = d.accountCompleted + 1) ↔
      (d.accountTable.filter fun a => d.accountNext ≤ a).length ≤ bs := by
  unfold accountNextBatch
  by_cases h :
      (accountLoop (d.accountTable.filter fun a => d.accountNext ≤ a) bs d.accountNext).2.2 = true
  · rw [if_pos h]
    have hr := (accountLoop_end _ bs d.accountNext).mp h
    simp [hr]
  · rw [if_neg h]
    have hr : ¬ (d.accountTable.filter fun a => d.accountNext ≤ a).length ≤ bs :=
      fun hc => h ((accountLoop_end _ bs d.accountNext).mpr hc)
    constructor
    · rintro ⟨-, hc⟩
      simp only at hc
      omega
    · intro hc
      exact absurd hc hr

theorem pendingLoop_false_len (table : List PendingKeyM) (fuel : Nat)
    (pos : List PendingKeyM) (next : PendingKeyM)
    (h : (pendingLoop table fuel pos next).2.2 = false) :
    (pendingLoop table fuel pos next).1.length = fuel := by
  induction fuel generalizing pos next with
  | zero =>
    cases pos with
    | nil => simp [pendingLoop] at h
    | cons k future => simp [pendingLoop]
  | succ fuel ih =>
    cases pos with
    | nil => simp [pendingLoop] at h
    | cons k future =>
      simp only [pendingLoop] at h ⊢
      simp only [List.length_cons]
      rw [ih _ _ h]

theorem pendingNextBatch_reset (d : DBScan) (bs : Nat)
    (h : (pendingNextBatch d bs).1.length < bs) :
    (pendingNextBatch d bs).2.pendingNext = ⟨0, 0⟩ ∧
      (pendingNextBatch d bs).2.pendingCompleted = d.pendingCompleted + 1 := by
  unfold pendingNextBatch at h ⊢
  by_cases he :
      (pendingLoop d.pendingTable bs (d.pendingTable.filter fun x => pkeyLe d.pendingNext x)
        d.pendingNext).2.2 = true
  · rw [if_pos he]
    exact ⟨rfl, rfl⟩
  · exfalso
    have hlen := pendingLoop_false_len d.pendingTable bs
      (d.pendingTable.filter fun x => pkeyLe d.pendingNext x) d.pendingNext
      ((Bool.not_eq_true _) ▸ he)
    rw [if_neg he] at h
    simp only at h
    omega

/-- C8: `DatabaseScan::next(filter)` returns the first queued candidate the
filter accepts (zero when none in the current fill is accepted); a cursor
that exhausts its table range during `next_batch` resets to the first key
and increments its completed counter (for the account cursor this happens
exactly when the remaining range fits in the batch; a pending batch shorter
than the batch size implies the pending cursor reset); and `warmed_up()`
holds exactly when both cursors have wrapped at least once. -/
theorem c8_database_scan (d : DBScan) (filter : Account → Bool) (bs : Nat) :
    (d.next filter).1 =
        (((if d.queue.isEmpty then d.fill else d).queue).find? filter).getD 0 ∧
      (((accountNextBatch d bs).2.accountNext = 0 ∧
          (accountNextBatch d bs).2.accountCompleted = d.accountCompleted + 1) ↔
        (d.accountTable.filter fun a => d.accountNext ≤ a).length ≤ bs) ∧
      ((pendingNextBatch d bs).1.length < bs →
        (pendingNextBatch d bs).2.pendingNext = ⟨0, 0⟩ ∧
          (pendingNextBatch d bs).2.pendingCompleted = d.pendingCompleted + 1) ∧
      (d.warmedUp = true ↔ 0 < d.accountCompleted ∧ 0 < d.pendingCompleted) :=
  ⟨dbNext_find d filter, accountNextBatch_reset d bs, pendingNextBatch_reset d bs,
   by simp [DBScan.warmedUp]⟩

/-- C8 witness: the theorem applied at a concrete scan state (two table
keys, batch size 3, accepting filter), with the implications discharged. -/
theorem c8_database_scan_witness :
    ((⟨[4, 9], [⟨4, 0⟩], [], 0, 0, ⟨0, 0⟩, 0⟩ : DBScan).next (fun _ => true)).1 =
        ((((⟨[4, 9], [⟨4, 0⟩], [], 0, 0, ⟨0, 0⟩, 0⟩ : DBScan).fill).queue).find?
          (fun _ => true)).getD 0 ∧
      (pendingNextBatch (⟨[4, 9], [⟨4, 0⟩], [], 0, 0, ⟨0, 0⟩, 0⟩ : DBScan) 3).2.pendingNext =
          ⟨0, 0⟩ ∧
        (pendingNextBatch (⟨[4, 9], [⟨4, 0⟩], [], 0, 0, ⟨0, 0⟩, 0⟩ : DBScan)
          3).2.pendingCompleted = 1 := by
  have h := c8_database_scan (⟨[4, 9], [⟨4, 0⟩], [], 0, 0, ⟨0, 0⟩, 0⟩ : DBScan)
    (fun _ => true) 3
  refine ⟨by simpa using h.1, h.2.2.1 (by decide)⟩

/-! ### Candidate selection (C5) -/

theorem foldl_better_mem (rest : List PriorityEntry) (e : PriorityEntry) :
    rest.foldl (fun b x => if betterEntry x b then x else b) e ∈ e :: rest := by
  induction rest generalizing e with
  | nil => simp
  | cons x xs ih =>
    simp only [List.foldl_cons]
    have h := ih (if betterEntry x e then x else e)
    rw [List.mem_cons] at h
    rcases h with h | h
    · by_cases hb : betterEntry x e
      · rw [if_pos hb] at h
        rw [if_pos hb, h]
        exact List.mem_cons_of_mem e (List.mem_cons_self x xs)
      · rw [if_neg hb] at h
        rw [if_neg hb, h]
        exact List.mem_cons_self e _
    · exact List.mem_cons_of_mem e (List.mem_cons_of_mem x h)

theorem nextPriority_filter (s : AccountSets) (now : Timestamp) (filter : Account → Bool) :
    s.nextPriority now filter = 0 ∨ filter (s.nextPriority now filter) = true := by
  unfold AccountSets.nextPriority
  cases hf : s.priorities.filter (fun e => cooldownElapsed now e ∧ filter e.account) with
  | nil => exact Or.inl rfl
  | cons e rest =>
    right
    have hmem : rest.foldl (fun b x => if betterEntry x b then x else b) e ∈ e :: rest :=
      foldl_better_mem rest e
    rw [← hf] at hmem
    have hp := List.of_mem_filter hmem
    simp only [decide_eq_true_eq] at hp
    exact hp.2

theorem nextPriorityL_filter (s : BState) (now : Timestamp)
    (h : (nextPriorityL s now).2.1 ≠ 0) :
    countByAccount s.tags (nextPriorityL s now).2.1 .priority < 4 := by
  unfold nextPriorityL at h ⊢
  by_cases h0 :
      s.accounts.nextPriority now (fun a => countByAccount s.tags a .priority < 4) = 0
  · simp [h0] at h
  · rcases nextPriority_filter s.accounts now
        (fun a => countByAccount s.tags a .priority < 4) with h1 | h1
    · exact absurd h1 h0
    · simp only [h0, if_neg, ite_false] at h ⊢
      simpa using h1

theorem nextDatabaseL_filter (s : BState) (st : Bool) (tok wf : Nat)
    (h : (nextDatabaseL s st tok wf).2.1 ≠ 0) :
    countByAccount s.tags (nextDatabaseL s st tok wf).2.1 .database = 0 := by
  unfold nextDatabaseL at h ⊢
  by_cases hw : tok < (if st then wf else 1)
  · simp [hw] at h
  · simp only [hw, if_neg, ite_false] at h ⊢
    have hfind := dbNext_find s.dbScan (fun a => countByAccount s.tags a .database = 0)
    by_cases h0 : (s.dbScan.next (fun a => countByAccount s.tags a .database = 0)).1 = 0
    · simp [h0] at h
    · simp only [h0, if_neg, ite_false] at h ⊢
      cases hf : ((if s.dbScan.queue.isEmpty then s.dbScan.fill else s.dbScan).queue).find?
          (fun a => countByAccount s.tags a .database = 0) with
      | none => rw [hfind, hf] at h0; simp at h0
      | some a =>
        rw [hfind, hf]
        have := List.find?_some hf
        simpa using this

theorem nextBlockingL_filter (s : BState) (h : (nextBlockingL s).2 ≠ 0) :
    countByHash s.tags (nextBlockingL s).2 .dependencies = 0 := by
  unfold nextBlockingL AccountSets.nextBlocking at h ⊢
  cases hf : s.accounts.blocking.find?
      (fun e => countByHash s.tags e.dependency .dependencies = 0) with
  | none => simp [hf] at h
  | some e =>
    simp only [hf] at h ⊢
    by_cases he : e.dependency = 0
    · simp [he] at h
    · simp only [he, if_neg, ite_false] at h ⊢
      have := List.find?_some hf
      simpa using this

/-- C5: every candidate returned by the selection functions satisfies its
in-flight filter over the live tags at selection time: a `next_priority`
account has fewer than 4 live Priority tags, a `next_database` account has
no live Database tag, and a `next_blocking` hash has no live Dependencies
tag. -/
theorem c5_selection_filters :
    (∀ (s : BState) (now : Timestamp), (nextPriorityL s now).2.1 ≠ 0 →
      countByAccount s.tags (nextPriorityL s now).2.1 .priority < 4) ∧
    (∀ (s : BState) (st : Bool) (tok wf : Nat), (nextDatabaseL s st tok wf).2.1 ≠ 0 →
      countByAccount s.tags (nextDatabaseL s st tok wf).2.1 .database = 0) ∧
    (∀ (s : BState), (nextBlockingL s).2 ≠ 0 →
      countByHash s.tags (nextBlockingL s).2 .dependencies = 0) :=
  ⟨nextPriorityL_filter, nextDatabaseL_filter, nextBlockingL_filter⟩

/-- C5 witness: a state with one blocked entry; `next_blocking` returns its
dependency hash 99, which has no live Dependencies tag. -/
theorem c5_selection_filters_witness :
    (nextBlockingL
        ⟨⟨⟨10, 10⟩, [], [⟨7, 99, 0⟩]⟩, [], ⟨4, []⟩, [], [],
          ⟨[], [], [], 0, 0, ⟨0, 0⟩, 0⟩, [], [], 0, ⟨0, 0, 0, 0, 0, 0⟩⟩).2 ≠ 0 ∧
    countByHash
        (⟨⟨⟨10, 10⟩, [], [⟨7, 99, 0⟩]⟩, [], ⟨4, []⟩, [], [],
          ⟨[], [], [], 0, 0, ⟨0, 0⟩, 0⟩, [], [], 0, ⟨0, 0, 0, 0, 0, 0⟩⟩ : BState).tags
        (nextBlockingL
          ⟨⟨⟨10, 10⟩, [], [⟨7, 99, 0⟩]⟩, [], ⟨4, []⟩, [], [],
            ⟨[], [], [], 0, 0, ⟨0, 0⟩, 0⟩, [], [], 0, ⟨0, 0, 0, 0, 0, 0⟩⟩).2
        .dependencies = 0 :=
  ⟨by decide,
   c5_selection_filters.2.2
     ⟨⟨⟨10, 10⟩, [], [⟨7, 99, 0⟩]⟩, [], ⟨4, []⟩, [], [],
       ⟨[], [], [], 0, 0, ⟨0, 0⟩, 0⟩, [], [], 0, ⟨0, 0, 0, 0, 0, 0⟩⟩ (by decide)⟩

/-! ### Reply processing (C2) -/

theorem removeTag_some_length (id : Nat) (tags : OrderedTags) (t : AsyncTag)
    (rest : OrderedTags) (h : removeTag id tags = some (t, rest)) :
    rest.length + 1 = tags.length := by
  induction tags generalizing t rest with
  | nil => simp [removeTag] at h
  | cons x xs ih =>
    simp only [removeTag] at h
    by_cases hx : x.id = id
    · rw [if_pos hx] at h
      cases h
      rfl
    · rw [if_neg hx] at h
      cases hr : removeTag id xs with
      | none => rw [hr] at h; cases h
      | some p =>
        rw [hr] at h
        obtain ⟨y, l⟩ := p
        cases h
        simp [← ih _ _ hr]

theorem processBlocksFn_tags (s : BState) (blocks : List Blk) (tag : AsyncTag)
    (s' : BState) (ok : Bool) (h : processBlocksFn s blocks tag = some (s', ok)) :
    s'.tags = s.tags := by
  unfold processBlocksFn at h
  cases hv : verifyResponse blocks tag with
  | none => rw [hv] at h; cases h
  | some v =>
    rw [hv] at h
    cases v with
    | ok =>
      cases blocks with
      | nil => cases h
      | cons first rest =>
        by_cases hdb : tag.source = .database <;> simp [hdb] at h <;>
          rw [← h.1]
    | nothingNew =>
      by_cases hdb : tag.source = .database <;> simp [hdb] at h <;>
        rw [← h.1]
    | invalid =>
      cases h
      rfl

theorem processAccountsFn_tags (s : BState) (resp : AccountInfoAckPayload) (tag : AsyncTag) :
    (processAccountsFn s resp tag).1.tags = s.tags := by
  unfold processAccountsFn
  by_cases h0 : resp.account = 0 <;> simp [h0]

theorem processFrontiersFn_tags (cfg : Config) (s : BState) (fs : List Frontier)
    (tag : AsyncTag) : (processFrontiersFn cfg s fs tag).1.tags = s.tags := by
  unfold processFrontiersFn
  by_cases h0 : fs = []
  · simp [h0]
  · simp only [h0, if_neg, ite_false]
    cases verifyFrontiers fs tag <;> simp <;> split <;> rfl


theorem processAck_some_shape (cfg : Config) (s : BState) (m : AscPullAckM)
    (ch : ChannelId) (t : AsyncTag) (rest : OrderedTags) (s' : BState) (d : Bool)
    (hre : removeTag m.id s.tags = some (t, rest))
    (hp : processAck cfg s m ch = some (s', d)) :
    s'.tags = rest ∧ d = variantMatches m.pullType t.queryType := by
  unfold processAck at hp
  split at hp
  · rename_i hnone
    rw [hre] at hnone
    cases hnone
  · rename_i tag2 rest2 heq
    rw [hre] at heq
    injection heq with heq
    injection heq with h1 h2
    subst h1
    subst h2
    by_cases hv : variantMatches m.pullType t.queryType = true
    · simp only [hv, not_true_eq_false, if_false, ite_false] at hp
      cases hm : m.pullType with
      | blocks bl =>
        rw [hm] at hp
        simp only [] at hp
        cases hd : processBlocksFn
            { s with tags := rest, stats := (s.stats.incReply).incOther 2 } bl t with
        | none =>
          rw [hd] at hp
          simp at hp
        | some p =>
          obtain ⟨s2, ok2⟩ := p
          have htags2 := processBlocksFn_tags _ bl t s2 ok2 hd
          rw [hd] at hp
          simp only [] at hp
          by_cases hok : ok2 = true
          · simp only [hok, if_true, ite_true, Option.some.injEq, Prod.mk.injEq] at hp
            obtain ⟨h1, h2⟩ := hp
            subst h1
            exact ⟨htags2, by rw [← h2, ← hm, hv]⟩
          · simp only [hok, if_false, ite_false, Bool.false_eq_true, Option.some.injEq,
              Prod.mk.injEq] at hp
            obtain ⟨h1, h2⟩ := hp
            subst h1
            exact ⟨htags2, by rw [← h2, ← hm, hv]⟩
      | accountInfo info =>
        rw [hm] at hp
        simp only [] at hp
        rcases hq : processAccountsFn
            { s with tags := rest, stats := (s.stats.incReply).incOther 2 } info t
          with ⟨s2, ok2⟩
        have htags2 := processAccountsFn_tags
          { s with tags := rest, stats := (s.stats.incReply).incOther 2 } info t
        rw [hq] at hp htags2
        simp only [] at hp
        by_cases hok : ok2 = true
        · simp only [hok, if_true, ite_true, Option.some.injEq, Prod.mk.injEq] at hp
          obtain ⟨h1, h2⟩ := hp
          subst h1
          exact ⟨htags2, by rw [← h2, ← hm, hv]⟩
        · simp only [hok, if_false, ite_false, Bool.false_eq_true, Option.some.injEq,
            Prod.mk.injEq] at hp
          obtain ⟨h1, h2⟩ := hp
          subst h1
          exact ⟨htags2, by rw [← h2, ← hm, hv]⟩
      | frontiers fs =>
        rw [hm] at hp
        simp only [] at hp
        rcases hq : processFrontiersFn cfg
            { s with tags := rest, stats := (s.stats.incReply).incOther 2 } fs t
          with ⟨s2, ok2⟩
        have htags2 := processFrontiersFn_tags cfg
          { s with tags := rest, stats := (s.stats.incReply).incOther 2 } fs t
        rw [hq] at hp htags2
        simp only [] at hp
        by_cases hok : ok2 = true
        · simp only [hok, if_true, ite_true, Option.some.injEq, Prod.mk.injEq] at hp
          obtain ⟨h1, h2⟩ := hp
          subst h1
          exact ⟨htags2, by rw [← h2, ← hm, hv]⟩
        · simp only [hok, if_false, ite_false, Bool.false_eq_true, Option.some.injEq,
            Prod.mk.injEq] at hp
          obtain ⟨h1, h2⟩ := hp
          subst h1
          exact ⟨htags2, by rw [← h2, ← hm, hv]⟩
    · simp only [Bool.not_eq_true] at hv
      simp only [hv, Bool.false_eq_true, not_false_eq_true, if_true, ite_true] at hp
      simp only [hv]
      cases hp
      exact ⟨rfl, rfl⟩

/-- C2: `process` performs a (non-statistics) state transition iff
`OrderedTags::remove(m.id)` returned `Some`; the payload is dispatched iff
the id matched a live tag and the payload variant matches the tag's query
type; and with no live tag for the id the only change is the `MissingTag`
counter. -/
theorem c2_process_transition (cfg : Config) (s : BState) (m : AscPullAckM)
    (ch : ChannelId) :
    (removeTag m.id s.tags = none →
      processAck cfg s m ch = some ({ s with stats := s.stats.incMissing }, false)) ∧
    (∀ s' d, processAck cfg s m ch = some (s', d) →
      (s'.core ≠ s.core ↔ (removeTag m.id s.tags).isSome = true)) ∧
    (∀ s' d, processAck cfg s m ch = some (s', d) →
      (d = true ↔ ∃ t rest, removeTag m.id s.tags = some (t, rest) ∧
        variantMatches m.pullType t.queryType = true)) := by
  refine ⟨fun h => by simp [processAck, h], ?_, ?_⟩
  · intro s' d hp
    cases hre : removeTag m.id s.tags with
    | none =>
      simp only [processAck, hre] at hp
      simp only [Option.some.injEq, Prod.mk.injEq] at hp
      obtain ⟨h1, h2⟩ := hp
      have hcore : s'.core = s.core := by
        rw [← h1]
        rfl
      simp [hcore, hre]
    | some p =>
      obtain ⟨t, rest⟩ := p
      obtain ⟨htags, hd⟩ := processAck_some_shape cfg s m ch t rest s' d hre hp
      have hlen := removeTag_some_length m.id s.tags t rest hre
      have hne : s'.core ≠ s.core := by
        intro hc
        have h2 : s'.tags = s.tags := congrArg BCore.tags hc
        rw [htags] at h2
        have h3 := congrArg List.length h2
        simp only [] at h3
        omega
      simp [hne]
  · intro s' d hp
    cases hre : removeTag m.id s.tags with
    | none =>
      simp only [processAck, hre] at hp
      simp only [Option.some.injEq, Prod.mk.injEq] at hp
      obtain ⟨h1, h2⟩ := hp
      subst h2
      simp
    | some p =>
      obtain ⟨t, rest⟩ := p
      obtain ⟨htags, hd⟩ := processAck_some_shape cfg s m ch t rest s' d hre hp
      subst hd
      constructor
      · intro hv
        exact ⟨t, rest, rfl, hv⟩
      · rintro ⟨t', rest', heq, hv⟩
        injection heq with heq
        injection heq with e1 e2
        subst e1
        exact hv

/-- C2 witness: an ack whose id has no live tag only bumps `MissingTag`. -/
theorem c2_process_transition_witness :
    removeTag 9 S0.tags = none ∧
    processAck ⟨3, 4⟩ S0 ⟨9, .blocks []⟩ 0 =
      some ({ S0 with stats := S0.stats.incMissing }, false) :=
  ⟨by decide, (c2_process_transition ⟨3, 4⟩ S0 ⟨9, .blocks []⟩ 0).1 (by decide)⟩

/-! ### Cleanup sweep (C6) -/

theorem evictTimedOut_dropWhile (cutoff : Nat) (tags : OrderedTags) (st : Stats) :
    (evictTimedOut cutoff tags st).1 =
      tags.dropWhile (fun t => t.timestamp < cutoff) := by
  induction tags generalizing st with
  | nil => rfl
  | cons t rest ih =>
    by_cases h : t.timestamp < cutoff <;>
      simp [evictTimedOut, List.dropWhile_cons, h, ih]

/-- C6: the cleanup sweep evicts tags sequentially from the insertion-ordered
front, stopping at the first tag not older than `request_timeout`, and (on a
tick where the 60-second dependency sync is not due) the accounts are
untouched: every account keeps its priority-set membership and priority
value. -/
theorem c6_cleanup_eviction (cfg : Config) (channels : List ChannelId)
    (throttleSize : Nat) (s : BState) (now : Timestamp) (inow : Nat)
    (h : inow < s.syncInterval + 60) :
    (cleanupAndSync cfg channels throttleSize s now inow).tags =
        s.tags.dropWhile (fun t => t.timestamp < now - cfg.requestTimeout) ∧
      (cleanupAndSync cfg channels throttleSize s now inow).accounts = s.accounts ∧
      ∀ a, (cleanupAndSync cfg channels throttleSize s now inow).accounts.priority a =
          s.accounts.priority a ∧
        (cleanupAndSync cfg channels throttleSize s now inow).accounts.prioritized a =
          s.accounts.prioritized a := by
  have hnot : ¬ inow ≥ s.syncInterval + 60 := by omega
  refine ⟨?_, ?_, ?_⟩ <;>
    simp [cleanupAndSync, hnot, evictTimedOut_dropWhile]

/-- C6 witness: one tag, aged past the timeout, is evicted while the
priority entry of its account is untouched. -/
theorem c6_cleanup_eviction_witness :
    (0 : Nat) < (⟨⟨⟨10, 10⟩, [⟨7, 2, 0⟩], []⟩, [⟨5, .blocksByHash, .priority, 1, 7, 0, 2, 0⟩],
        ⟨4, []⟩, [], [], ⟨[], [], [], 0, 0, ⟨0, 0⟩, 0⟩, [], [], 0,
        ⟨0, 0, 0, 0, 0, 0⟩⟩ : BState).syncInterval + 60 ∧
    (cleanupAndSync ⟨3, 4⟩ [] 16
        ⟨⟨⟨10, 10⟩, [⟨7, 2, 0⟩], []⟩, [⟨5, .blocksByHash, .priority, 1, 7, 0, 2, 0⟩],
          ⟨4, []⟩, [], [], ⟨[], [], [], 0, 0, ⟨0, 0⟩, 0⟩, [], [], 0,
          ⟨0, 0, 0, 0, 0, 0⟩⟩ 10 0).tags =
      ([⟨5, .blocksByHash, .priority, 1, 7, 0, 2, 0⟩] : OrderedTags).dropWhile
        (fun t => t.timestamp < 10 - 3) ∧
    (cleanupAndSync ⟨3, 4⟩ [] 16
        ⟨⟨⟨10, 10⟩, [⟨7, 2, 0⟩], []⟩, [⟨5, .blocksByHash, .priority, 1, 7, 0, 2, 0⟩],
          ⟨4, []⟩, [], [], ⟨[], [], [], 0, 0, ⟨0, 0⟩, 0⟩, [], [], 0,
          ⟨0, 0, 0, 0, 0, 0⟩⟩ 10 0).accounts =
      ⟨⟨10, 10⟩, [⟨7, 2, 0⟩], []⟩ :=
  ⟨by decide,
   (c6_cleanup_eviction ⟨3, 4⟩ [] 16
      ⟨⟨⟨10, 10⟩, [⟨7, 2, 0⟩], []⟩, [⟨5, .blocksByHash, .priority, 1, 7, 0, 2, 0⟩],
        ⟨4, []⟩, [], [], ⟨[], [], [], 0, 0, ⟨0, 0⟩, 0⟩, [], [], 0,
        ⟨0, 0, 0, 0, 0, 0⟩⟩ 10 0 (by decide)).1,
   (c6_cleanup_eviction ⟨3, 4⟩ [] 16
      ⟨⟨⟨10, 10⟩, [⟨7, 2, 0⟩], []⟩, [⟨5, .blocksByHash, .priority, 1, 7, 0, 2, 0⟩],
        ⟨4, []⟩, [], [], ⟨[], [], [], 0, 0, ⟨0, 0⟩, 0⟩, [], [], 0,
        ⟨0, 0, 0, 0, 0, 0⟩⟩ 10 0 (by decide)).2.1⟩

/-! ### Priority/blocked disjointness (C1) -/

theorem mem_trim {cfg : AccountSetsConfig} {l : List PriorityEntry} {e : PriorityEntry}
    (h : e ∈ trimPriorities cfg l) : e ∈ l := by
  unfold trimPriorities at h
  split at h
  · exact h
  · exact (List.eraseP_sublist l).subset h

theorem not_blocked_ne {s : AccountSets} {a : Account} (h : s.isBlocked a = false) :
    ∀ b ∈ s.blocking, b.account ≠ a := by
  intro b hb
  unfold AccountSets.isBlocked at h
  rw [List.any_eq_false] at h
  have := h b hb
  simpa using this

theorem mem_map_paccount {l : List PriorityEntry} {f : PriorityEntry → PriorityEntry}
    (hf : ∀ e, (f e).account = e.account) {e : PriorityEntry} (he : e ∈ l.map f) :
    ∃ e0 ∈ l, e.account = e0.account := by
  obtain ⟨e0, he0, rfl⟩ := List.mem_map.mp he
  exact ⟨e0, he0, hf e0⟩

theorem mem_map_baccount {l : List BlockingEntry} {f : BlockingEntry → BlockingEntry}
    (hf : ∀ e, (f e).account = e.account) {e : BlockingEntry} (he : e ∈ l.map f) :
    ∃ e0 ∈ l, e.account = e0.account := by
  obtain ⟨e0, he0, rfl⟩ := List.mem_map.mp he
  exact ⟨e0, he0, hf e0⟩

theorem disjoint_of_subkeys {s s' : AccountSets}
    (hp : ∀ e ∈ s'.priorities, ∃ e0 ∈ s.priorities, e.account = e0.account)
    (hb : ∀ b ∈ s'.blocking, ∃ b0 ∈ s.blocking, b.account = b0.account)
    (h : DisjointSets s) : DisjointSets s' := by
  intro e he b hbmem
  obtain ⟨e0, he0, hea⟩ := hp e he
  obtain ⟨b0, hb0, hba⟩ := hb b hbmem
  rw [hea, hba]
  exact h e0 he0 b0 hb0

theorem disjoint_cons_trim {cfg : AccountSetsConfig} {pr : List PriorityEntry}
    {bl : List BlockingEntry} {a : Account} {p : Rat} {ts : Timestamp}
    (h : ∀ e ∈ pr, ∀ b ∈ bl, e.account ≠ b.account)
    (ha : ∀ b ∈ bl, b.account ≠ a) :
    ∀ e ∈ trimPriorities cfg (⟨a, p, ts⟩ :: pr), ∀ b ∈ bl, e.account ≠ b.account := by
  intro e he b hb
  rcases List.mem_cons.mp (mem_trim he) with he' | he'
  · rw [he']
    exact Ne.symm (ha b hb)
  · exact h e he' b hb

theorem disjoint_prioritySet (s : AccountSets) (a : Account) (p : Rat)
    (h : DisjointSets s) : DisjointSets (s.prioritySet a p).1 := by
  unfold AccountSets.prioritySet
  by_cases h0 : a = 0
  · simpa [h0] using h
  · by_cases hb : s.isBlocked a = true
    · simpa [h0, hb] using h
    · by_cases hpz : s.prioritized a = true
      · simp only [h0, hb, hpz, if_false, if_true, ite_true, ite_false]
        exact disjoint_of_subkeys
          (fun e he => mem_map_paccount (fun e0 => by by_cases hx : e0.account = a <;> simp [hx]) he)
          (fun b hbm => ⟨b, hbm, rfl⟩) h
      · simp only [h0, hb, hpz, if_false, if_true, ite_true, ite_false]
        exact disjoint_cons_trim h (not_blocked_ne (Bool.not_eq_true _ ▸ hb))

theorem disjoint_prioritySetInitial (s : AccountSets) (a : Account)
    (h : DisjointSets s) : DisjointSets (s.prioritySetInitial a).1 :=
  disjoint_prioritySet s a PRIORITY_INITIAL h

theorem disjoint_priorityUp (s : AccountSets) (a : Account)
    (h : DisjointSets s) : DisjointSets (s.priorityUp a).1 := by
  unfold AccountSets.priorityUp
  by_cases h0 : a = 0
  · simpa [h0] using h
  · by_cases hb : s.isBlocked a = true
    · simpa [h0, hb] using h
    · by_cases hpz : s.prioritized a = true
      · simp only [h0, hb, hpz, if_false, if_true, ite_true, ite_false]
        exact disjoint_of_subkeys
          (fun e he => mem_map_paccount (fun e0 => by by_cases hx : e0.account = a <;> simp [hx]) he)
          (fun b hbm => ⟨b, hbm, rfl⟩) h
      · simp only [h0, hb, hpz, if_false, if_true, ite_true, ite_false]
        exact disjoint_cons_trim h (not_blocked_ne (Bool.not_eq_true _ ▸ hb))

theorem disjoint_priorityDown (s : AccountSets) (a : Account)
    (h : DisjointSets s) : DisjointSets (s.priorityDown a).1 := by
  unfold AccountSets.priorityDown
  by_cases h0 : a = 0
  · simpa [h0] using h
  · simp only [h0, if_false, ite_false]
    cases hf : s.priorities.find? (·.account = a) with
    | none => exact h
    | some e =>
      by_cases hcut : e.priority / 2 < PRIORITY_CUTOFF
      · simp only [hcut, if_true, ite_true]
        exact disjoint_of_subkeys
          (fun x hx => ⟨x, (List.mem_filter.mp hx).1, rfl⟩)
          (fun b hbm => ⟨b, hbm, rfl⟩) h
      · simp only [hcut, if_false, ite_false]
        exact disjoint_of_subkeys
          (fun x hx => mem_map_paccount (fun e0 => by by_cases hy : e0.account = a <;> simp [hy]) hx)
          (fun b hbm => ⟨b, hbm, rfl⟩) h

theorem disjoint_block (s : AccountSets) (a : Account) (dep : BlockHash)
    (h : DisjointSets s) : DisjointSets (s.block a dep) := by
  unfold AccountSets.block
  intro e he b hb
  simp only at he hb
  have hef := List.mem_filter.mp he
  have hea : e.account ≠ a := by simpa using hef.2
  by_cases hexists : s.blocking.any (·.account = a) = true
  · rw [if_pos hexists] at hb
    obtain ⟨b0, hb0, hba⟩ :=
      mem_map_baccount (fun e0 => by by_cases hx : e0.account = a <;> simp [hx]) hb
    rw [hba]
    exact h e hef.1 b0 hb0
  · rw [if_neg hexists] at hb
    rcases List.mem_cons.mp hb with hb' | hb'
    · rw [hb']
      exact hea
    · exact h e hef.1 b hb'

theorem disjoint_unblock (s : AccountSets) (a : Account) (hh : Option BlockHash)
    (h : DisjointSets s) : DisjointSets (s.unblock a hh).1 := by
  unfold AccountSets.unblock
  cases hf : s.blocking.find? (·.account = a) with
  | none => exact h
  | some e =>
    by_cases hm : (match hh with
      | none => true
      | some hh2 => decide (hh2 = e.dependency)) = true
    · simp only [hm, if_true, ite_true]
      intro x hx b hb
      simp only at hx hb
      have hbf := List.mem_filter.mp hb
      have hbna : b.account ≠ a := by simpa using hbf.2
      by_cases hpz : s.priorities.any (·.account = a) = true
      · rw [if_pos hpz] at hx
        exact h x hx b hbf.1
      · rw [if_neg hpz] at hx
        rcases List.mem_cons.mp (mem_trim hx) with hx' | hx'
        · rw [hx']
          exact Ne.symm hbna
        · exact h x hx' b hbf.1
    · simp only [hm, if_false, ite_false]
      exact h

theorem disjoint_dependencyUpdate (s : AccountSets) (hash : BlockHash) (na : Account)
    (h : DisjointSets s) : DisjointSets (s.dependencyUpdate hash na).1 := by
  unfold AccountSets.dependencyUpdate
  have hmid : DisjointSets
      { s with blocking :=
          s.blocking.map (fun e =>
            if e.dependency = hash then { e with dependencyAccount := na } else e) } := by
    intro x hx b hb
    simp only at hx hb
    obtain ⟨b0, hb0, hba⟩ :=
      mem_map_baccount
        (f := fun e => if e.dependency = hash then { e with dependencyAccount := na } else e)
        (fun e0 => by by_cases hx2 : e0.dependency = hash <;> simp [hx2]) hb
    rw [hba]
    exact h x hx b0 hb0
  by_cases hn : (s.blocking.filter (·.dependency = hash)).length > 0
  · simpa [hn] using disjoint_prioritySet _ na PRIORITY_CUTOFF hmid
  · simpa [hn] using hmid

theorem disjoint_syncFold (l : List BlockingEntry) :
    ∀ (acc : AccountSets × Nat × Nat), DisjointSets acc.1 →
      DisjointSets ((l.foldl
        (fun acc e =>
          let st := acc.1
          if e.dependencyAccount = 0 then acc
          else
            match st.prioritySet e.dependencyAccount PRIORITY_CUTOFF with
            | (st2, true) => (st2, acc.2.1 + 1, acc.2.2)
            | (st2, false) => (st2, acc.2.1, acc.2.2 + 1)) acc).1) := by
  induction l with
  | nil => exact fun _ h => h
  | cons e rest ih =>
    intro acc h
    simp only [List.foldl_cons]
    apply ih
    by_cases h0 : e.dependencyAccount = 0
    · simpa [h0] using h
    · simp only [h0, if_false, ite_false]
      rcases hq : acc.1.prioritySet e.dependencyAccount PRIORITY_CUTOFF with ⟨st2, bb⟩
      have hd := disjoint_prioritySet acc.1 e.dependencyAccount PRIORITY_CUTOFF h
      rw [hq] at hd
      cases bb <;> simpa using hd

theorem disjoint_syncDependencies (s : AccountSets) (h : DisjointSets s) :
    DisjointSets s.syncDependencies.1 := by
  unfold AccountSets.syncDependencies
  exact disjoint_syncFold s.blocking (s, 0, 0) h

theorem disjoint_inspect (sets : AccountSets) (stats : Stats) (status : BlockStatusM)
    (block : Blk) (savedBlock : Option Blk) (source : BlockSourceM) (account : Account)
    (sets' : AccountSets) (stats' : Stats) (h : DisjointSets sets)
    (hi : inspect sets stats status block savedBlock source account = some (sets', stats')) :
    DisjointSets sets' := by
  unfold inspect at hi
  cases status with
  | progress =>
    cases savedBlock with
    | none => cases hi
    | some sb =>
      by_cases hs : sb.isSend = true
      · cases hd : sb.destination with
        | none =>
          simp only [hs, hd, if_true, ite_true] at hi
          cases hi
        | some dest =>
          simp only [hs, hd, if_true, ite_true, Option.some.injEq, Prod.mk.injEq] at hi
          obtain ⟨h1, h2⟩ := hi
          rw [← h1]
          exact disjoint_prioritySetInitial _ _
            (disjoint_unblock _ _ _ (disjoint_priorityUp _ _ (disjoint_unblock _ _ _ h)))
      · simp only [] at hi
        rw [if_neg hs] at hi
        simp only [Option.some.injEq, Prod.mk.injEq] at hi
        obtain ⟨h1, h2⟩ := hi
        rw [← h1]
        exact disjoint_priorityUp _ _ (disjoint_unblock _ _ _ h)
  | gapSource =>
    by_cases hsrc : source = .bootstrap
    · simp only [hsrc, if_true, ite_true] at hi
      by_cases hcond : account ≠ 0 ∧ block.sourceOrLink ≠ 0
      · rw [if_pos hcond] at hi
        simp only [Option.some.injEq, Prod.mk.injEq] at hi
        obtain ⟨h1, h2⟩ := hi
        rw [← h1]
        exact disjoint_block _ _ _ h
      · rw [if_neg hcond] at hi
        simp only [Option.some.injEq, Prod.mk.injEq] at hi
        rw [← hi.1]
        exact h
    · simp only [hsrc, if_false, ite_false] at hi
      simp only [Option.some.injEq, Prod.mk.injEq] at hi
      rw [← hi.1]
      exact h
  | gapPrevious =>
    by_cases hcond : source = .live ∧ ¬ sets.priorityHalfFull = true ∧
        ¬ sets.blockedHalfFull = true
    · rw [if_pos hcond] at hi
      by_cases hk : block.kind = .state
      · rw [if_pos hk] at hi
        cases haf : block.accountField with
        | none =>
          rw [haf] at hi
          cases hi
        | some a =>
          rw [haf] at hi
          simp only [Option.some.injEq, Prod.mk.injEq] at hi
          rw [← hi.1]
          exact disjoint_prioritySetInitial _ _ h
      · rw [if_neg hk] at hi
        simp only [Option.some.injEq, Prod.mk.injEq] at hi
        rw [← hi.1]
        exact h
    · rw [if_neg hcond] at hi
      simp only [Option.some.injEq, Prod.mk.injEq] at hi
      rw [← hi.1]
      exact h
  | otherStatus =>
    simp only [Option.some.injEq, Prod.mk.injEq] at hi
    rw [← hi.1]
    exact h

/-- C1: the priority set and the blocked map stay disjoint: every operation
that moves accounts between the two collections (`priority_set`,
`priority_set_initial`, `priority_up`, `priority_down`, `block`, `unblock`,
`dependency_update`, `sync_dependencies`) preserves disjointness, as does
the block-processor feedback handler `inspect`. -/
theorem c1_priority_blocked_disjoint (s : AccountSets) (h : DisjointSets s) :
    (∀ a p, DisjointSets (s.prioritySet a p).1) ∧
    (∀ a, DisjointSets (s.prioritySetInitial a).1) ∧
    (∀ a, DisjointSets (s.priorityUp a).1) ∧
    (∀ a, DisjointSets (s.priorityDown a).1) ∧
    (∀ a dep, DisjointSets (s.block a dep)) ∧
    (∀ a hh, DisjointSets (s.unblock a hh).1) ∧
    (∀ hash na, DisjointSets (s.dependencyUpdate hash na).1) ∧
    DisjointSets s.syncDependencies.1 ∧
    (∀ stats status blk sb src acct sets' stats',
      inspect s stats status blk sb src acct = some (sets', stats') →
        DisjointSets sets') :=
  ⟨fun a p => disjoint_prioritySet s a p h,
   fun a => disjoint_prioritySetInitial s a h,
   fun a => disjoint_priorityUp s a h,
   fun a => disjoint_priorityDown s a h,
   fun a dep => disjoint_block s a dep h,
   fun a hh => disjoint_unblock s a hh h,
   fun hash na => disjoint_dependencyUpdate s hash na h,
   disjoint_syncDependencies s h,
   fun stats status blk sb src acct sets' stats' hi =>
     disjoint_inspect s stats status blk sb src acct sets' stats' h hi⟩

/-- C1 witness: blocking a prioritized account at a concrete state keeps the
two collections disjoint. -/
theorem c1_priority_blocked_disjoint_witness :
    DisjointSets ((⟨⟨10, 10⟩, [⟨7, 2, 0⟩], [⟨9, 5, 0⟩]⟩ : AccountSets).block 7 5) :=
  (c1_priority_blocked_disjoint ⟨⟨10, 10⟩, [⟨7, 2, 0⟩], [⟨9, 5, 0⟩]⟩
    (by decide)).2.2.2.2.1 7 5

/-! ### Assertion and panic behaviour (C7) -/

/-- C7 counterexample: an ack whose id matches a live `Frontiers` tag but
whose payload is `Blocks` is NOT a fatal assertion: `process` drops it,
increments `InvalidResponseType`, and returns normally (the claim says the
program aborts). -/
theorem c7_counterexample :
    processAck ⟨3, 4⟩
        ⟨⟨⟨10, 10⟩, [], []⟩, [⟨5, .frontiers, .frontiers, 1, 0, 0, 0, 0⟩], ⟨4, []⟩, [], [],
          ⟨[], [], [], 0, 0, ⟨0, 0⟩, 0⟩, [], [], 0, ⟨0, 0, 0, 0, 0, 0⟩⟩
        ⟨5, .blocks []⟩ 0 =
      some (⟨⟨⟨10, 10⟩, [], []⟩, [], ⟨4, []⟩, [], [],
          ⟨[], [], [], 0, 0, ⟨0, 0⟩, 0⟩, [], [], 0, ⟨0, 1, 1, 0, 0, 0⟩⟩, false) := by
  decide

/-- C7 (amended): inserting a tag whose id is already live fails the (debug)
assertion in `create_asc_pull_request`; an ack whose payload variant
mismatches after its id matched is handled gracefully — the tag is consumed,
`InvalidResponseType` is incremented, and processing continues without any
abort; and a peer CAN induce a panic: a `Blocks` response to a
`BlocksByAccount` tag whose first block carries no account field panics
inside `verify_response`. -/
theorem c7_assertions_amended :
    (∀ (tags : OrderedTags) (tag : AsyncTag), tag.source ≠ .invalid →
      containsTag tags tag.id = true → createAscPullRequest tags tag = none) ∧
    (∀ (cfg : Config) (s : BState) (m : AscPullAckM) (ch : ChannelId)
        (t : AsyncTag) (rest : OrderedTags),
      removeTag m.id s.tags = some (t, rest) →
      variantMatches m.pullType t.queryType = false →
      processAck cfg s m ch =
        some ({ s with tags := rest, stats := (s.stats.incReply).incInvalidType }, false)) ∧
    processAck ⟨3, 4⟩
        ⟨⟨⟨10, 10⟩, [], []⟩, [⟨5, .blocksByAccount, .priority, 7, 0, 0, 2, 0⟩], ⟨4, []⟩,
          [], [], ⟨[], [], [], 0, 0, ⟨0, 0⟩, 0⟩, [], [], 0, ⟨0, 0, 0, 0, 0, 0⟩⟩
        ⟨5, .blocks [⟨.legacyChange, 9, 3, 0, 0, 0, 0, false, 0⟩]⟩ 0 = none := by
  refine ⟨?_, ?_, by decide⟩
  · intro tags tag hsrc hdup
    simp [createAscPullRequest, hsrc, hdup]
  · intro cfg s m ch t rest hre hv
    simp [processAck, hre, hv]

/-- C7 witness: the amended statement applied at concrete inputs — a
duplicate-id insertion is refused, and a concrete variant mismatch is
dropped with `InvalidResponseType` incremented. -/
theorem c7_assertions_amended_witness :
    createAscPullRequest [⟨5, .frontiers, .frontiers, 1, 0, 0, 0, 0⟩]
        ⟨5, .blocksByHash, .priority, 2, 0, 0, 2, 0⟩ = none ∧
    processAck ⟨3, 4⟩
        ⟨⟨⟨10, 10⟩, [], []⟩, [⟨6, .frontiers, .frontiers, 1, 0, 0, 0, 0⟩], ⟨4, []⟩, [], [],
          ⟨[], [], [], 0, 0, ⟨0, 0⟩, 0⟩, [], [], 0, ⟨0, 0, 0, 0, 0, 0⟩⟩
        ⟨6, .accountInfo ⟨3⟩⟩ 0 =
      some (⟨⟨⟨10, 10⟩, [], []⟩, [], ⟨4, []⟩, [], [],
          ⟨[], [], [], 0, 0, ⟨0, 0⟩, 0⟩, [], [], 0, ⟨0, 1, 1, 0, 0, 0⟩⟩, false) :=
  ⟨c7_assertions_amended.1 [⟨5, .frontiers, .frontiers, 1, 0, 0, 0, 0⟩]
     ⟨5, .blocksByHash, .priority, 2, 0, 0, 2, 0⟩ (by decide) (by decide),
   c7_assertions_amended.2.1 ⟨3, 4⟩
     ⟨⟨⟨10, 10⟩, [], []⟩, [⟨6, .frontiers, .frontiers, 1, 0, 0, 0, 0⟩], ⟨4, []⟩, [], [],
       ⟨[], [], [], 0, 0, ⟨0, 0⟩, 0⟩, [], [], 0, ⟨0, 0, 0, 0, 0, 0⟩⟩
     ⟨6, .accountInfo ⟨3⟩⟩ 0 ⟨6, .frontiers, .frontiers, 1, 0, 0, 0, 0⟩ [] (by decide)
     (by decide)⟩
